import Mathlib

set_option maxRecDepth 100000

/-!
# Verification of the Image-Downloader pipeline

Shallow embedding of `download_images.py` (the flat variant) and
`download_images_organized.py` (the grouped variant).  Strings are modelled as
their character lists; the network is modelled by oracles: the page fetch
result (`PageResult`) and a per-URL image fetch function (`FetchResult`).
File-system effects are modelled as an event trace.  Python's seed-randomized
built-in `hash` is a parameter of the flat variant; `hashlib.md5` is
implemented in full.  Python's `\w` regex class is Unicode-aware; it is
modelled here by its ASCII part, which coincides with it on every ASCII
input (all inputs considered in the claims are ASCII).
-/

/-- ASCII lowercasing of one character (models `str.lower` on scheme strings). -/
def asciiLower (c : Char) : Char :=
  if 65 ≤ c.toNat ∧ c.toNat ≤ 90 then Char.ofNat (c.toNat + 32) else c

/-- The regex class `[a-zA-Z]`. -/
def isAlphaA (c : Char) : Bool :=
  decide ((97 ≤ c.toNat ∧ c.toNat ≤ 122) ∨ (65 ≤ c.toNat ∧ c.toNat ≤ 90))

/-- The regex class `[0-9]`. -/
def isDigitA (c : Char) : Bool := decide (48 ≤ c.toNat ∧ c.toNat ≤ 57)

/-- The regex class `\w` (ASCII part): letters, digits, underscore. -/
def isWordA (c : Char) : Bool := isAlphaA c || isDigitA c || decide (c = '_')

/-- Characters kept by `re.sub(r'[^\w\-_.]', '_', s)` (filenames, original names). -/
def keepNameChar (c : Char) : Bool := isWordA c || decide (c = '-') || decide (c = '.')

/-- Characters kept by `re.sub(r'[^\w\-_]', '_', s)` (alt/title text). -/
def keepTextChar (c : Char) : Bool := isWordA c || decide (c = '-')

/-- `re.sub(r'[^\w\-_.]', '_', s)`. -/
def cleanNameL (l : List Char) : List Char :=
  l.map (fun c => if keepNameChar c then c else '_')

/-- `re.sub(r'[^\w\-_]', '_', s)`. -/
def cleanTextL (l : List Char) : List Char :=
  l.map (fun c => if keepTextChar c then c else '_')

def isPrefixL : List Char → List Char → Bool
  | [], _ => true
  | _ :: _, [] => false
  | a :: as, b :: bs => decide (a = b) && isPrefixL as bs

/-- `s.startswith(pre)`. -/
def startsWithL (l pre : List Char) : Bool := isPrefixL pre l

/-- `s.endswith(suf)`. -/
def endsWithL (l suf : List Char) : Bool := isPrefixL suf.reverse l.reverse

/-- Python substring containment `needle in hay`. -/
def hasSubL (needle : List Char) : List Char → Bool
  | [] => isPrefixL needle []
  | c :: rest => isPrefixL needle (c :: rest) || hasSubL needle rest

/-- Index of the last character satisfying `p`, if any. -/
def idxLast (p : Char → Bool) : List Char → Option Nat
  | [] => none
  | c :: rest =>
    match idxLast p rest with
    | some i => some (i + 1)
    | none => if p c then some 0 else none

/-- `os.path.splitext` (POSIX): split off the extension at the last dot,
unless every character between the last slash and that dot is a dot. -/
def splitextL (l : List Char) : List Char × List Char :=
  let fnStart : Nat :=
    match idxLast (fun c => decide (c = '/')) l with
    | some i => i + 1
    | none => 0
  match idxLast (fun c => decide (c = '.')) l with
  | none => (l, [])
  | some d =>
    if fnStart ≤ d ∧ ((l.drop fnStart).take (d - fnStart)).any (fun c => decide (c ≠ '.'))
    then (l.take d, l.drop d) else (l, [])

/-- `os.path.basename` (POSIX): the part after the last slash. -/
def basenameL (l : List Char) : List Char :=
  l.foldl (fun acc c => if c = '/' then [] else acc ++ [c]) []

/-- `os.path.join(a, b)` (POSIX) for two components. -/
def pjoinL (a b : List Char) : List Char :=
  if startsWithL b ['/'] then b
  else if a = [] then b
  else if endsWithL a ['/'] then a ++ b
  else a ++ '/' :: b

def digitCharD (n : Nat) : Char :=
  match n with
  | 0 => '0' | 1 => '1' | 2 => '2' | 3 => '3' | 4 => '4'
  | 5 => '5' | 6 => '6' | 7 => '7' | 8 => '8' | _ => '9'

/-- Decimal digits, fuel-bounded structural recursion so that it reduces
definitionally; fuel `n` always suffices (proved by `decValL_natDecL`). -/
def natDecAux : Nat → Nat → List Char
  | 0, n => [digitCharD n]
  | fuel + 1, n =>
    if n < 10 then [digitCharD n]
    else natDecAux fuel (n / 10) ++ [digitCharD (n % 10)]

/-- Decimal representation of a natural number, as produced by Python
string formatting of a nonnegative integer. -/
def natDecL (n : Nat) : List Char := natDecAux n n

/-- Numeric value of a decimal digit character. -/
def decDigitVal (c : Char) : Nat := c.toNat - 48

/-- Value of a decimal digit string (used only to reason about `natDecL`). -/
def decValL (l : List Char) : Nat := l.foldl (fun a c => a * 10 + decDigitVal c) 0

/-! ## URL parsing and joining (`urllib.parse`) -/

/-- Characters allowed in a URL scheme after the leading letter. -/
def isSchemeChar (c : Char) : Bool :=
  isAlphaA c || isDigitA c || decide (c = '+') || decide (c = '-') || decide (c = '.')

/-- Split at the first occurrence of `c`: the part before it and, when found,
the part after it. -/
def breakAtChar (c : Char) : List Char → List Char × Option (List Char)
  | [] => ([], none)
  | x :: xs =>
    if x = c then ([], some xs)
    else
      let r := breakAtChar c xs
      (x :: r.1, r.2)

structure UrlParts where
  scheme : List Char
  netloc : List Char
  path : List Char
  query : List Char
  fragment : List Char
deriving DecidableEq

/-- Model of `urllib.parse.urlsplit`: scheme (lowercased), netloc after `//`,
then fragment after the first `#`, then query after the first `?`. -/
def urlsplitL (u : List Char) : UrlParts :=
  let br := breakAtChar ':' u
  let sr : List Char × List Char :=
    match br.2 with
    | some rest =>
      match br.1 with
      | [] => ([], u)
      | c :: cs =>
        if isAlphaA c ∧ cs.all isSchemeChar = true
        then ((c :: cs).map asciiLower, rest) else ([], u)
    | none => ([], u)
  let scheme := sr.1
  let afterScheme := sr.2
  let nr : List Char × List Char :=
    if startsWithL afterScheme ('/' :: '/' :: []) then
      let r2 := afterScheme.drop 2
      let nl := r2.takeWhile (fun c => !(decide (c = '/') || decide (c = '?') || decide (c = '#')))
      (nl, r2.drop nl.length)
    else ([], afterScheme)
  let netloc := nr.1
  let fr := breakAtChar '#' nr.2
  let fragment := match fr.2 with | some f => f | none => []
  let qr := breakAtChar '?' fr.1
  let query := match qr.2 with | some q => q | none => []
  ⟨scheme, netloc, qr.1, query, fragment⟩

/-- Model of `urllib.parse.urlunsplit`. -/
def urlunsplitL (p : UrlParts) : List Char :=
  let url := p.path
  let url :=
    if p.netloc ≠ [] ∨ startsWithL url ('/' :: '/' :: []) = true then
      '/' :: '/' :: p.netloc ++ (if url ≠ [] ∧ ¬ startsWithL url ['/'] = true then '/' :: url else url)
    else url
  let url := if p.scheme ≠ [] then p.scheme ++ ':' :: url else url
  let url := if p.query ≠ [] then url ++ '?' :: p.query else url
  if p.fragment ≠ [] then url ++ '#' :: p.fragment else url

def splitOnSlashAux (cur : List Char) : List Char → List (List Char)
  | [] => [cur.reverse]
  | c :: rest =>
    if c = '/' then cur.reverse :: splitOnSlashAux [] rest
    else splitOnSlashAux (c :: cur) rest

/-- `s.split('/')`. -/
def splitOnSlash (l : List Char) : List (List Char) := splitOnSlashAux [] l

/-- `urllib.parse.uses_relative`. -/
def usesRelative : List (List Char) :=
  ([ "", "ftp", "http", "gopher", "nntp", "imap", "wais", "file", "https",
     "shttp", "mms", "prospero", "rtsp", "rtspu", "sftp", "svn", "svn+ssh",
     "ws", "wss" ] : List String).map String.data

/-- The segment-resolution loop of `urljoin`: pop on `..`, skip `.`, and keep
a trailing empty segment when the last input segment is `.` or `..`. -/
def resolveSegs (segs : List (List Char)) : List (List Char) :=
  let res := segs.foldl (fun acc seg =>
    if seg = ['.'] then acc
    else if seg = ['.', '.'] then acc.dropLast
    else acc ++ [seg]) []
  match segs.getLast? with
  | some s => if s = ['.'] ∨ s = ['.', '.'] then res ++ [[]] else res
  | none => res

/-- Model of `urllib.parse.urljoin` (CPython 3.8+ algorithm). -/
def urljoinL (base ref : List Char) : List Char :=
  if base = [] then ref
  else if ref = [] then base
  else
    let b := urlsplitL base
    let r0 := urlsplitL ref
    let scheme := if r0.scheme = [] then b.scheme else r0.scheme
    if scheme ≠ b.scheme ∨ scheme ∉ usesRelative then ref
    else if r0.netloc ≠ [] then
      urlunsplitL ⟨scheme, r0.netloc, r0.path, r0.query, r0.fragment⟩
    else if r0.path = [] then
      urlunsplitL ⟨scheme, b.netloc, b.path, (if r0.query = [] then b.query else r0.query), r0.fragment⟩
    else
      let baseParts := splitOnSlash b.path
      let baseParts := if baseParts.getLast? ≠ some [] then baseParts.dropLast else baseParts
      let segments :=
        if startsWithL r0.path ['/'] then splitOnSlash r0.path
        else
          match baseParts ++ splitOnSlash r0.path with
          | [] => []
          | [x] => [x]
          | first :: rest =>
            first :: (rest.dropLast.filter (fun s => s ≠ []) ++ [rest.getLastD []])
      let path := List.intercalate ['/'] (resolveSegs segments)
      let path := if path = [] then ['/'] else path
      urlunsplitL ⟨scheme, b.netloc, path, r0.query, r0.fragment⟩

/-- Scheme-prefix normalization of the page URL (lines 22-25). -/
def normPageUrlL (u : List Char) : List Char :=
  if startsWithL u ("http://".data) || startsWithL u ("https://".data) then u
  else "https://".data ++ u

/-- `base_url = f"{scheme}://{netloc}"` of the page URL (lines 26-29). -/
def baseUrlL (pageUrl : List Char) : List Char :=
  let p := urlsplitL pageUrl
  p.scheme ++ ':' :: '/' :: '/' :: p.netloc

/-- Resolution of one raw image reference against the page URL (lines 62-68
of both variants). -/
def resolveRefL (pageUrl ref : List Char) : List Char :=
  if startsWithL ref ("http://".data) || startsWithL ref ("https://".data) then ref
  else if startsWithL ref ("//".data) then (urlsplitL pageUrl).scheme ++ ':' :: ref
  else if startsWithL ref ['/'] then baseUrlL pageUrl ++ ref
  else urljoinL pageUrl ref

/-- The discard filter of line 71: inline data URLs, empty URLs, `.svg` suffix. -/
def badUrlL (u : List Char) : Bool :=
  hasSubL ("data:image".data) u || decide (u = []) || endsWithL u (".svg".data)

/-- The params split that `urllib.parse.urlparse` applies to the `urlsplit`
path: drop everything from the first `;` in the last path segment. -/
def pathNoParams (p : List Char) : List Char :=
  let pre : Nat :=
    match idxLast (fun c => decide (c = '/')) p with
    | some i => i + 1
    | none => 0
  match breakAtChar ';' (p.drop pre) with
  | (_, none) => p
  | (seg, some _) => p.take (pre + seg.length)

/-- `urllib.parse.urlparse(u).path`. -/
def urlparsePathL (u : List Char) : List Char := pathNoParams (urlsplitL u).path

/-! ## MD5 (`hashlib.md5`), over `Nat` with explicit 32-bit reduction -/

/-- The 64 MD5 sine-table constants (RFC 1321). -/
def md5K : List Nat := [
  0xd76aa478, 0xe8c7b756, 0x242070db, 0xc1bdceee,
  0xf57c0faf, 0x4787c62a, 0xa8304613, 0xfd469501,
  0x698098d8, 0x8b44f7af, 0xffff5bb1, 0x895cd7be,
  0x6b901122, 0xfd987193, 0xa679438e, 0x49b40821,
  0xf61e2562, 0xc040b340, 0x265e5a51, 0xe9b6c7aa,
  0xd62f105d, 0x02441453, 0xd8a1e681, 0xe7d3fbc8,
  0x21e1cde6, 0xc33707d6, 0xf4d50d87, 0x455a14ed,
  0xa9e3e905, 0xfcefa3f8, 0x676f02d9, 0x8d2a4c8a,
  0xfffa3942, 0x8771f681, 0x6d9d6122, 0xfde5380c,
  0xa4beea44, 0x4bdecfa9, 0xf6bb4b60, 0xbebfbc70,
  0x289b7ec6, 0xeaa127fa, 0xd4ef3085, 0x04881d05,
  0xd9d4d039, 0xe6db99e5, 0x1fa27cf8, 0xc4ac5665,
  0xf4292244, 0x432aff97, 0xab9423a7, 0xfc93a039,
  0x655b59c3, 0x8f0ccc92, 0xffeff47d, 0x85845dd1,
  0x6fa87e4f, 0xfe2ce6e0, 0xa3014314, 0x4e0811a1,
  0xf7537e82, 0xbd3af235, 0x2ad7d2bb, 0xeb86d391]

/-- The 64 MD5 per-round left-rotation amounts. -/
def md5S : List Nat := [
  7, 12, 17, 22, 7, 12, 17, 22, 7, 12, 17, 22, 7, 12, 17, 22,
  5, 9, 14, 20, 5, 9, 14, 20, 5, 9, 14, 20, 5, 9, 14, 20,
  4, 11, 16, 23, 4, 11, 16, 23, 4, 11, 16, 23, 4, 11, 16, 23,
  6, 10, 15, 21, 6, 10, 15, 21, 6, 10, 15, 21, 6, 10, 15, 21]

def w32 (n : Nat) : Nat := n % 4294967296

def not32 (x : Nat) : Nat := 4294967295 - w32 x

def rotl32 (x s : Nat) : Nat := w32 (w32 x * 2 ^ s) + w32 x / 2 ^ (32 - s)

def md5F (i b c d : Nat) : Nat :=
  if i < 16 then (b &&& c) ||| (not32 b &&& d)
  else if i < 32 then (d &&& b) ||| (not32 d &&& c)
  else if i < 48 then b ^^^ c ^^^ d
  else c ^^^ (b ||| not32 d)

def md5G (i : Nat) : Nat :=
  if i < 16 then i
  else if i < 32 then (5 * i + 1) % 16
  else if i < 48 then (3 * i + 5) % 16
  else (7 * i) % 16

def md5Step (M : List Nat) (st : Nat × Nat × Nat × Nat) (i : Nat) : Nat × Nat × Nat × Nat :=
  let f := w32 (md5F i st.2.1 st.2.2.1 st.2.2.2 + st.1 + md5K.getD i 0 + M.getD (md5G i) 0)
  (st.2.2.2, w32 (st.2.1 + rotl32 f (md5S.getD i 0)), st.2.1, st.2.2.1)

/-- `k` bytes of `n`, little-endian. -/
def leBytes (k n : Nat) : List Nat :=
  match k with
  | 0 => []
  | k + 1 => n % 256 :: leBytes k (n / 256)

/-- MD5 message padding: `0x80`, zeros to 56 mod 64, 8-byte LE bit length. -/
def md5Pad (msg : List Nat) : List Nat :=
  msg ++ 0x80 :: List.replicate ((55 + 64 - msg.length % 64) % 64) 0 ++ leBytes 8 (msg.length * 8)

/-- Little-endian 32-bit words of a chunk. -/
def toWords : List Nat → List Nat
  | b0 :: b1 :: b2 :: b3 :: rest => (b0 + 256 * b1 + 65536 * b2 + 16777216 * b3) :: toWords rest
  | _ => []

/-- 64-byte chunks, fuel-bounded structural recursion so that it reduces
definitionally; the fuel `l.length` always suffices since every step consumes
at least one byte. -/
def chunks64Aux : Nat → List Nat → List (List Nat)
  | _, [] => []
  | 0, x :: xs => [(x :: xs).take 64]
  | fuel + 1, x :: xs => (x :: xs).take 64 :: chunks64Aux fuel ((x :: xs).drop 64)

def chunks64 (l : List Nat) : List (List Nat) := chunks64Aux l.length l

def md5Chunk (st : Nat × Nat × Nat × Nat) (chunk : List Nat) : Nat × Nat × Nat × Nat :=
  let r := (List.range 64).foldl (md5Step (toWords chunk)) st
  (w32 (st.1 + r.1), w32 (st.2.1 + r.2.1), w32 (st.2.2.1 + r.2.2.1), w32 (st.2.2.2 + r.2.2.2))

def md5Init : Nat × Nat × Nat × Nat := (0x67452301, 0xefcdab89, 0x98badcfe, 0x10325476)

def md5Digest (msg : List Nat) : List Nat :=
  let r := (chunks64 (md5Pad msg)).foldl md5Chunk md5Init
  leBytes 4 r.1 ++ leBytes 4 r.2.1 ++ leBytes 4 r.2.2.1 ++ leBytes 4 r.2.2.2

def hexDigitL (n : Nat) : Char :=
  match n with
  | 0 => '0' | 1 => '1' | 2 => '2' | 3 => '3' | 4 => '4' | 5 => '5' | 6 => '6'
  | 7 => '7' | 8 => '8' | 9 => '9' | 10 => 'a' | 11 => 'b' | 12 => 'c'
  | 13 => 'd' | 14 => 'e' | _ => 'f'

def byteHex (b : Nat) : List Char := [hexDigitL (b / 16 % 16), hexDigitL (b % 16)]

/-- UTF-8 encoding of one character. -/
def utf8Char (c : Char) : List Nat :=
  let n := c.toNat
  if n < 128 then [n]
  else if n < 2048 then [192 + n / 64, 128 + n % 64]
  else if n < 65536 then [224 + n / 4096, 128 + n / 64 % 64, 128 + n % 64]
  else [240 + n / 262144, 128 + n / 4096 % 64, 128 + n / 64 % 64, 128 + n % 64]

/-- UTF-8 bytes of a character list (`s.encode()`). -/
def utf8Bytes (l : List Char) : List Nat := l.foldr (fun c acc => utf8Char c ++ acc) []

/-- `hashlib.md5(s.encode()).hexdigest()`. -/
def md5HexL (l : List Char) : List Char :=
  (md5Digest (utf8Bytes l)).foldr (fun b acc => byteHex b ++ acc) []

/-! ## The two regex searches of the CDN branch -/

/-- The regex class `[a-f0-9]`. -/
def isHexLow (c : Char) : Bool := isDigitA c || decide (97 ≤ c.toNat ∧ c.toNat ≤ 102)

/-- Match exactly `n` `[a-f0-9]` characters at the head. -/
def hexRun (n : Nat) (l : List Char) : Option (List Char × List Char) :=
  if (l.take n).length = n ∧ (l.take n).all isHexLow = true
  then some (l.take n, l.drop n) else none

def dashNext : List Char → Option (List Char)
  | '-' :: rest => some rest
  | _ => none

/-- Match the 8-4-4-4-12 UUID pattern at the head. -/
def matchUuidAt (l : List Char) : Option (List Char) := do
  let (a, r1) ← hexRun 8 l
  let r2 ← dashNext r1
  let (b, r3) ← hexRun 4 r2
  let r4 ← dashNext r3
  let (c, r5) ← hexRun 4 r4
  let r6 ← dashNext r5
  let (d, r7) ← hexRun 4 r6
  let r8 ← dashNext r7
  let (e, _) ← hexRun 12 r8
  pure (a ++ '-' :: b ++ '-' :: c ++ '-' :: d ++ '-' :: e)

/-- `re.search` of the UUID pattern (line 77 / 83): leftmost occurrence. -/
def uuidSearch : List Char → Option (List Char)
  | [] => none
  | c :: rest =>
    match matchUuidAt (c :: rest) with
    | some u => some u
    | none => uuidSearch rest

def kwStart (l : List Char) : Bool :=
  startsWithL l ("format".data) || startsWithL l ("preview".data) || startsWithL l ("quality".data)

/-- Does the optional separator (dash-slash or dash) followed by one of the
keywords `format`, `preview`, `quality` match a prefix of `l`? -/
def kwAfter (l : List Char) : Bool :=
  (startsWithL l ("-/".data) && kwStart (l.drop 2)) ||
  (startsWithL l ("-".data) && kwStart (l.drop 1)) || kwStart l

/-- Lazy group `[^/]+?` after a slash: the shortest nonempty slash-free run
whose remainder starts with the optional dash and a keyword. -/
def groupAt (acc : List Char) : List Char → Option (List Char)
  | [] => none
  | c :: rest =>
    if c = '/' then none
    else if kwAfter rest then some (acc ++ [c])
    else groupAt (acc ++ [c]) rest

/-- The original-name search of line 86: `re.search` of a slash, a lazy
nonempty slash-free group, an optional separator (dash-slash or dash), and one
of the keywords `format`, `preview`, `quality`; leftmost match position, lazy
group extent, returning group 1. -/
def origSearch : List Char → Option (List Char)
  | [] => none
  | c :: rest =>
    if c = '/' then
      match groupAt [] rest with
      | some g => some g
      | none => origSearch rest
    else origSearch rest

/-! ## Filename derivation -/

/-- `uuid[-8:]`. -/
def lastN (n : Nat) (l : List Char) : List Char := l.drop (l.length - n)

/-- Flat-variant general (non-CDN) path, lines 84-91: basename, clean, then
append `.jpg` when there is no extension. -/
def generalNameFlatL (url : List Char) : List Char :=
  let f := cleanNameL (basenameL (urlparsePathL url))
  if (splitextL f).2 = [] then f ++ ".jpg".data else f

/-- Grouped-variant general (non-CDN) path before the generic-name check,
lines 116-125: basename, append `.jpg` when there is no extension, then clean. -/
def generalNameGroupedL (url : List Char) : List Char :=
  let f0 := basenameL (urlparsePathL url)
  cleanNameL (if (splitextL f0).2 = [] then f0 ++ ".jpg".data else f0)

/-- The generic names triggering the alt/title fallback (line 128). -/
def genericNames : List (List Char) :=
  ["image.jpg".data, "img.jpg".data, "picture.jpg".data, ".jpg".data]

/-- Grouped-variant derivation of `(filename, original_name)` for one resolved
URL with its alt and title text (lines 78-134). -/
def groupedDeriveL (url alt title : List Char) : List Char × List Char :=
  if hasSubL ("shgcdn.com".data) url then
    let origName :=
      match origSearch url with
      | some o => cleanNameL o
      | none => []
    let fn :=
      match uuidSearch url with
      | some uuid =>
        if origName ≠ [] then origName ++ '_' :: (lastN 8 uuid ++ ".jpg".data)
        else if alt.length > 3 then (cleanTextL alt).take 30 ++ '_' :: (lastN 8 uuid ++ ".jpg".data)
        else if title.length > 3 then (cleanTextL title).take 30 ++ '_' :: (lastN 8 uuid ++ ".jpg".data)
        else "image_".data ++ uuid ++ ".jpg".data
      | none =>
        if origName ≠ [] then origName ++ '_' :: ((md5HexL url).take 8 ++ ".jpg".data)
        else "image_".data ++ (md5HexL url).take 12 ++ ".jpg".data
    (fn, origName)
  else
    let f := generalNameGroupedL url
    let fn :=
      if f ∈ genericNames ∨ f.length < 5 then
        if alt.length > 3 then (cleanTextL alt).take 30 ++ '_' :: ((md5HexL url).take 8 ++ ".jpg".data)
        else if title.length > 3 then (cleanTextL title).take 30 ++ '_' :: ((md5HexL url).take 8 ++ ".jpg".data)
        else f
      else f
    (fn, [])

/-- Flat-variant derivation (lines 74-91).  `pyHash` stands for Python's
seed-randomized built-in `hash`; the code formats `hash(img_url) & 0xffffffff`
in decimal. -/
def flatDeriveL (pyHash : List Char → Nat) (url : List Char) : List Char :=
  if hasSubL ("shgcdn.com".data) url then
    match uuidSearch url with
    | some uuid => "image_".data ++ uuid ++ ".jpg".data
    | none => "image_".data ++ natDecL (pyHash url % 4294967296) ++ ".jpg".data
  else generalNameFlatL url

/-! ## Grouping (grouped variant only) -/

/-- `re.match(r'^([a-zA-Z_]+)', s)`: the leading letters-and-underscores run. -/
def leadAlphaUnd (l : List Char) : List Char :=
  l.takeWhile (fun c => isAlphaA c || decide (c = '_'))

/-- `re.split(r'[^a-zA-Z]', s)[0]`: the leading letters run. -/
def leadAlpha (l : List Char) : List Char := l.takeWhile isAlphaA

/-- Group-key assignment for one image (lines 148-167). -/
def groupKeyL (filename origName : List Char) : List Char :=
  let k0 := if leadAlphaUnd filename ≠ [] then leadAlphaUnd filename else filename.take 3
  let k1 := if origName ≠ [] ∧ leadAlpha origName ≠ [] then leadAlpha origName else k0
  if k1.length < 2 then "misc".data else k1

/-! ## Run model -/

/-- One parsed `<img>` tag as see by the pipeline. -/
structure ImgTag where
  src : Option String
  dataSrc : Option String
  dataOriginal : Option String
  alt : String
  title : String
deriving DecidableEq

/-- Result of the initial page fetch; `err` covers both network errors and
non-success HTTP statuses (which `raise_for_status` turns into exceptions). -/
inductive PageResult where
  | err
  | ok (tags : List ImgTag)
deriving DecidableEq

/-- Result of one image GET; `err` covers network errors, timeouts and
non-success statuses. -/
inductive FetchResult where
  | err
  | ok (contentType : String) (body : List Nat)
deriving DecidableEq

/-- Observable actions of a run.  `sleep` durations are in tenths of a time
unit, so `time.sleep(0.5)` is `sleep 5`. -/
inductive Event where
  | pageError
  | attempt (url : String)
  | fetchFail (url : String)
  | skipContent (url : String) (contentType : String)
  | save (path : String) (body : List Nat)
  | sleep (tenths : Nat)
  | done (count : Nat)
deriving DecidableEq

/-- `img.get('src') or img.get('data-src') or img.get('data-original')`:
Python `or` falls through on `None` and on the empty string. -/
def orElseTruthy (a b : Option String) : Option String :=
  match a with
  | some s => if s = "" then b else some s
  | none => b

def pickSrc (t : ImgTag) : Option String :=
  orElseTruthy t.src (orElseTruthy t.dataSrc t.dataOriginal)

/-- Candidate filenames of the collision loop: the derived name itself, then
`base_1.ext`, `base_2.ext`, ... -/
def mkCand (b e : List Char) : Nat → List Char
  | 0 => b ++ e
  | k + 1 => b ++ '_' :: (natDecL (k + 1) ++ e)

/-- The collision `while` loop (lines 93-98 / 191-196), fuel-bounded; fuel
`used.length + 1` always reaches a candidate outside `used`. -/
def uniqueLoop (used : List (List Char)) (b e : List Char) : Nat → Nat → List Char
  | 0, k => mkCand b e k
  | fuel + 1, k =>
    if mkCand b e k ∈ used then uniqueLoop used b e fuel (k + 1) else mkCand b e k

/-- Unique-filename selection against the tracking set. -/
def uniqueNameL (used : List (List Char)) (f : List Char) : List Char :=
  uniqueLoop used (splitextL f).1 (splitextL f).2 (used.length + 1) 0

/-- Collision-tracking set plus the running success count. -/
structure DlState where
  used : List (List Char)
  count : Nat
deriving DecidableEq

/-- The naming + download block that both variants share verbatim
(lines 93-127 of the flat variant, 191-225 of the grouped one): reserve a
unique name, attempt the GET, skip non-image content, save and sleep on
success. -/
def itemStep (fetch : String → FetchResult) (dir : String) (st : DlState)
    (url : String) (rawName : List Char) : List Event × DlState :=
  let fn := uniqueNameL st.used rawName
  let path : String := ⟨pjoinL dir.data fn⟩
  match fetch url with
  | .err => ([.attempt url, .fetchFail url], ⟨fn :: st.used, st.count⟩)
  | .ok ct body =>
    if startsWithL ct.data ("image/".data) then
      ([.attempt url, .save path body, .sleep 5], ⟨fn :: st.used, st.count + 1⟩)
    else
      ([.attempt url, .skipContent url ct], ⟨fn :: st.used, st.count⟩)

/-- One iteration of the flat variant's image loop (lines 54-127). -/
def flatTagStep (pyHash : List Char → Nat) (fetch : String → FetchResult)
    (pageUrl folder : String) (st : DlState) (t : ImgTag) : List Event × DlState :=
  match pickSrc t with
  | none => ([], st)
  | some r =>
    if r = "" then ([], st)
    else
      let u : String := ⟨resolveRefL pageUrl.data r.data⟩
      if badUrlL u.data then ([], st)
      else itemStep fetch folder st u (flatDeriveL pyHash u.data)

/-- Sequential loop over items, accumulating the trace and threading state. -/
def runFold {α : Type} (step : DlState → α → List Event × DlState) :
    List α → DlState → List Event × DlState
  | [], st => ([], st)
  | t :: ts, st =>
    let r1 := step st t
    let r2 := runFold step ts r1.2
    (r1.1 ++ r2.1, r2.2)

/-- Full run of `download_images.py`. -/
def download_images_flat (pyHash : List Char → Nat) (fetch : String → FetchResult)
    (pageUrl folder : String) (page : PageResult) : List Event :=
  let pu : String := ⟨normPageUrlL pageUrl.data⟩
  match page with
  | .err => [.pageError]
  | .ok tags =>
    let r := runFold (flatTagStep pyHash fetch pu folder) tags ⟨[], 0⟩
    r.1 ++ [.done r.2.count]

/-- The record collected for one image by the grouped variant (lines 137-143). -/
structure Info where
  url : String
  filename : List Char
  altText : String
  title : String
  originalName : List Char
deriving DecidableEq

/-- Collection step of the grouped variant (lines 54-143): pick the raw
reference, resolve, filter, derive the name. -/
def mkInfo (pageUrl : String) (t : ImgTag) : Option Info :=
  match pickSrc t with
  | none => none
  | some r =>
    if r = "" then none
    else
      let u : String := ⟨resolveRefL pageUrl.data r.data⟩
      if badUrlL u.data then none
      else
        let fd := groupedDeriveL u.data t.alt.data t.title.data
        some ⟨u, fd.1, t.alt, t.title, fd.2⟩

def collectInfos (pageUrl : String) (tags : List ImgTag) : List Info :=
  tags.filterMap (mkInfo pageUrl)

/-- Append to the entry of key `k`, or create it at the end (models Python
dict insertion order). -/
def addGroup : List (List Char × List Info) → List Char → Info → List (List Char × List Info)
  | [], k, v => [(k, [v])]
  | (k0, vs) :: rest, k, v =>
    if k0 = k then (k0, vs ++ [v]) :: rest else (k0, vs) :: addGroup rest k v

/-- `defaultdict(list)` grouping by group key (lines 146-169). -/
def buildGroups (infos : List Info) : List (List Char × List Info) :=
  infos.foldl (fun gs i => addGroup gs (groupKeyL i.filename i.originalName) i) []

/-- Directory a group's files go to (lines 176-181): a subdirectory named by
the key when the group has more than one image, the output root otherwise. -/
def groupDir (folder : String) (g : List Char × List Info) : String :=
  if g.2.length > 1 then ⟨pjoinL folder.data g.1⟩ else folder

def groupStep (fetch : String → FetchResult) (dir : String) (st : DlState) (i : Info) :
    List Event × DlState :=
  itemStep fetch dir st i.url i.filename

/-- Download loop of one group (lines 183-225): fresh per-group collision set,
success count carried across groups. -/
def groupRun (fetch : String → FetchResult) (folder : String) (c : Nat)
    (g : List Char × List Info) : List Event × Nat :=
  let r := runFold (groupStep fetch (groupDir folder g)) g.2 ⟨[], c⟩
  (r.1, r.2.count)

/-- The loop over groups (line 174): traces concatenate, the success count
threads through. -/
def orgFold (fetch : String → FetchResult) (folder : String) :
    List (List Char × List Info) → List Event × Nat → List Event × Nat
  | [], acc => acc
  | g :: gs, acc =>
    let e := groupRun fetch folder acc.2 g
    orgFold fetch folder gs (acc.1 ++ e.1, e.2)

/-- Full run of `download_images_organized.py`. -/
def download_images_organized (fetch : String → FetchResult)
    (pageUrl folder : String) (page : PageResult) : List Event :=
  let pu : String := ⟨normPageUrlL pageUrl.data⟩
  match page with
  | .err => [.pageError]
  | .ok tags =>
    let r := orgFold fetch folder (buildGroups (collectInfos pu tags)) ([], 0)
    r.1 ++ [.done r.2]

/-! ## Trace observers and String-level wrappers -/

def savePaths (tr : List Event) : List String :=
  tr.filterMap (fun e => match e with | .save p _ => some p | _ => none)

def attemptUrls (tr : List Event) : List String :=
  tr.filterMap (fun e => match e with | .attempt u => some u | _ => none)

def isSleep (e : Event) : Bool := match e with | .sleep _ => true | _ => false

def isSave (e : Event) : Bool := match e with | .save _ _ => true | _ => false

def countSleeps (tr : List Event) : Nat := (tr.filter isSleep).length

def countSaves (tr : List Event) : Nat := (tr.filter isSave).length

def resolveRef (pageUrl ref : String) : String := ⟨resolveRefL pageUrl.data ref.data⟩

def urljoin (base ref : String) : String := ⟨urljoinL base.data ref.data⟩

def badUrl (u : String) : Bool := badUrlL u.data

def flatDerive (pyHash : List Char → Nat) (url : String) : String :=
  ⟨flatDeriveL pyHash url.data⟩

def groupedDerive (url alt title : String) : String × String :=
  (⟨(groupedDeriveL url.data alt.data title.data).1⟩,
   ⟨(groupedDeriveL url.data alt.data title.data).2⟩)

def generalName (url : String) : String := ⟨generalNameFlatL url.data⟩

def groupKey (filename origName : String) : String := ⟨groupKeyL filename.data origName.data⟩

def md5Hex (s : String) : String := ⟨md5HexL s.data⟩

def cleanText (s : String) : String := ⟨cleanTextL s.data⟩

def uuidSearchS (u : String) : Option String := (uuidSearch u.data).map (⟨·⟩)

def origSearchS (u : String) : Option String := (origSearch u.data).map (⟨·⟩)

/-! # Lemmas

## Decimal formatting -/

theorem decDigitVal_digitCharD (n : Nat) (h : n < 10) : decDigitVal (digitCharD n) = n := by
  interval_cases n <;> rfl

theorem natDecAux_ne_nil (fuel n : Nat) : natDecAux fuel n ≠ [] := by
  cases fuel with
  | zero => simp [natDecAux]
  | succ fuel =>
    rw [natDecAux]
    split
    · simp
    · simp

theorem natDecL_ne_nil (n : Nat) : natDecL n ≠ [] := natDecAux_ne_nil n n

theorem decValL_concat (l : List Char) (c : Char) :
    decValL (l ++ [c]) = decValL l * 10 + decDigitVal c := by
  simp [decValL, List.foldl_append]

theorem decValL_natDecAux :
    ∀ fuel n, n < 10 ∨ n ≤ fuel → decValL (natDecAux fuel n) = n := by
  intro fuel
  induction fuel with
  | zero =>
    intro n h
    have hn : n < 10 := by omega
    simp [natDecAux, decValL, List.foldl, decDigitVal_digitCharD n hn]
  | succ fuel ih =>
    intro n h
    rw [natDecAux]
    split
    · next hlt => simp [decValL, List.foldl, decDigitVal_digitCharD n hlt]
    · next hge =>
      push_neg at hge
      rw [decValL_concat, ih (n / 10) (Or.inr (by omega)),
        decDigitVal_digitCharD (n % 10) (by omega)]
      omega

theorem decValL_natDecL (n : Nat) : decValL (natDecL n) = n :=
  decValL_natDecAux n n (Or.inr le_rfl)

theorem natDecL_injective : Function.Injective natDecL := by
  intro m n h
  have := decValL_natDecL m
  rw [h, decValL_natDecL] at this
  omega

/-! ## The collision loop -/

theorem splitextL_append (l : List Char) : (splitextL l).1 ++ (splitextL l).2 = l := by
  rw [splitextL]
  split
  · simp
  · split
    · simp
    · simp

theorem mkCand_injective (b e : List Char) : Function.Injective (mkCand b e) := by
  intro i j h
  match i, j with
  | 0, 0 => rfl
  | 0, j + 1 =>
    exfalso
    have hl := congrArg List.length h
    have hne := natDecL_ne_nil (j + 1)
    simp [mkCand] at hl
    have : 0 < (natDecL (j + 1)).length := List.length_pos.mpr hne
    omega
  | i + 1, 0 =>
    exfalso
    have hl := congrArg List.length h
    have hne := natDecL_ne_nil (i + 1)
    simp [mkCand] at hl
    have : 0 < (natDecL (i + 1)).length := List.length_pos.mpr hne
    omega
  | i + 1, j + 1 =>
    simp only [mkCand] at h
    have h2 := List.append_cancel_left h
    simp only [List.cons.injEq, true_and] at h2
    have h3 := List.append_cancel_right h2
    have := natDecL_injective h3
    omega

theorem exists_fresh_cand (used : List (List Char)) (b e : List Char) :
    ∃ k, k ≤ used.length ∧ mkCand b e k ∉ used := by
  by_contra hcon
  push_neg at hcon
  have hsub : ((List.range (used.length + 1)).map (mkCand b e)).toFinset ⊆ used.toFinset := by
    intro x hx
    simp only [List.mem_toFinset, List.mem_map, List.mem_range] at hx
    obtain ⟨k, hk, rfl⟩ := hx
    exact List.mem_toFinset.mpr (hcon k (by omega))
  have hnd : ((List.range (used.length + 1)).map (mkCand b e)).Nodup :=
    (List.nodup_range (used.length + 1)).map (mkCand_injective b e)
  have h1 : ((List.range (used.length + 1)).map (mkCand b e)).toFinset.card = used.length + 1 := by
    rw [List.toFinset_card_of_nodup hnd]
    simp
  have h2 := Finset.card_le_card hsub
  have h3 := List.toFinset_card_le used
  omega

theorem uniqueLoop_not_mem (used : List (List Char)) (b e : List Char) :
    ∀ fuel k, (∃ j, j < fuel ∧ mkCand b e (k + j) ∉ used) →
      uniqueLoop used b e fuel k ∉ used := by
  intro fuel
  induction fuel with
  | zero =>
    intro k h
    obtain ⟨j, hj, _⟩ := h
    omega
  | succ fuel ih =>
    intro k h
    obtain ⟨j, hj, hfree⟩ := h
    rw [uniqueLoop]
    split
    · next hmem =>
      apply ih (k + 1)
      cases j with
      | zero => exact absurd hmem (by simpa using hfree)
      | succ j =>
        refine ⟨j, by omega, ?_⟩
        have harith : k + 1 + j = k + (j + 1) := by omega
        rw [harith]
        exact hfree
    · next hmem => exact hmem

theorem uniqueLoop_eq_mkCand (used : List (List Char)) (b e : List Char) :
    ∀ fuel k, ∃ j, uniqueLoop used b e fuel k = mkCand b e j := by
  intro fuel
  induction fuel with
  | zero => intro k; exact ⟨k, rfl⟩
  | succ fuel ih =>
    intro k
    rw [uniqueLoop]
    split
    · exact ih (k + 1)
    · exact ⟨k, rfl⟩

theorem uniqueNameL_not_mem (used : List (List Char)) (f : List Char) :
    uniqueNameL used f ∉ used := by
  obtain ⟨k, hk, hfree⟩ := exists_fresh_cand used (splitextL f).1 (splitextL f).2
  exact uniqueLoop_not_mem used _ _ (used.length + 1) 0 ⟨k, by omega, by simpa using hfree⟩

theorem startsWithL_slash_nil : startsWithL [] ['/'] = false := rfl

theorem startsWithL_slash_cons (c : Char) (l : List Char) :
    startsWithL (c :: l) ['/'] = decide (c = '/') := by
  simp only [startsWithL, isPrefixL, Bool.and_true]
  exact decide_eq_decide.mpr eq_comm

theorem mkCand_noSlash (b e : List Char) (h : startsWithL (b ++ e) ['/'] = false) (k : Nat) :
    startsWithL (mkCand b e k) ['/'] = false := by
  match b, k with
  | [], 0 => simpa [mkCand] using h
  | [], k + 1 => simp [mkCand, startsWithL_slash_cons]
  | c :: b, 0 => simpa [mkCand, startsWithL_slash_cons] using h
  | c :: b, k + 1 =>
    simp only [List.cons_append, startsWithL_slash_cons] at h
    simpa [mkCand, startsWithL_slash_cons] using h

theorem uniqueNameL_noSlash (used : List (List Char)) (f : List Char)
    (h : startsWithL f ['/'] = false) : startsWithL (uniqueNameL used f) ['/'] = false := by
  obtain ⟨j, hj⟩ := uniqueLoop_eq_mkCand used (splitextL f).1 (splitextL f).2 (used.length + 1) 0
  rw [uniqueNameL, hj]
  exact mkCand_noSlash _ _ (by rwa [splitextL_append]) j

/-! ## Cleaning, extensions, and slashes -/

theorem cleanChar_dot_iff (c : Char) :
    ((if keepNameChar c then c else '_') = '.') ↔ c = '.' := by
  by_cases hk : keepNameChar c = true
  · rw [if_pos hk]
  · rw [if_neg hk]
    constructor
    · intro h; exact absurd h (by decide)
    · intro h; subst h; exact absurd (by decide) hk

theorem cleanName_no_slash (l : List Char) : '/' ∉ cleanNameL l := by
  simp only [cleanNameL, List.mem_map]
  rintro ⟨c, _, h⟩
  by_cases hk : keepNameChar c = true
  · rw [if_pos hk] at h; subst h; exact absurd hk (by decide)
  · rw [if_neg hk] at h; exact absurd h (by decide)

theorem cleanText_no_slash (l : List Char) : '/' ∉ cleanTextL l := by
  simp only [cleanTextL, List.mem_map]
  rintro ⟨c, _, h⟩
  by_cases hk : keepTextChar c = true
  · rw [if_pos hk] at h; subst h; exact absurd hk (by decide)
  · rw [if_neg hk] at h; exact absurd h (by decide)

theorem basename_aux_no_slash (l : List Char) :
    ∀ acc, '/' ∉ acc →
      '/' ∉ l.foldl (fun acc c => if c = '/' then [] else acc ++ [c]) acc := by
  induction l with
  | nil => intro acc h; exact h
  | cons c rest ih =>
    intro acc h
    simp only [List.foldl]
    by_cases hc : c = '/'
    · rw [if_pos hc]; exact ih [] (by simp)
    · rw [if_neg hc]
      apply ih
      intro hm
      rcases List.mem_append.mp hm with h1 | h2
      · exact h h1
      · simp only [List.mem_singleton] at h2
        exact hc h2.symm

theorem basename_no_slash (l : List Char) : '/' ∉ basenameL l :=
  basename_aux_no_slash l [] (by simp)

theorem idxLast_dot_cleanName (l : List Char) :
    idxLast (fun c => decide (c = '.')) (cleanNameL l) =
      idxLast (fun c => decide (c = '.')) l := by
  induction l with
  | nil => rfl
  | cons c rest ih =>
    show idxLast _ ((if keepNameChar c then c else '_') :: cleanNameL rest) = _
    rw [idxLast, idxLast, ih]
    cases idxLast (fun c => decide (c = '.')) rest with
    | some i => rfl
    | none => rw [decide_eq_decide.mpr (cleanChar_dot_iff c)]

theorem idxLast_slash_none (l : List Char) (h : '/' ∉ l) :
    idxLast (fun c => decide (c = '/')) l = none := by
  induction l with
  | nil => rfl
  | cons c rest ih =>
    rw [idxLast, ih (fun hm => h (List.mem_cons_of_mem c hm))]
    have hc : ¬ (c = '/') := fun hc => h (hc ▸ List.mem_cons_self c rest)
    simp [hc]

theorem cleanName_any_ne_dot (m : List Char) :
    ((cleanNameL m).any fun c => decide (c ≠ '.')) = (m.any fun c => decide (c ≠ '.')) := by
  induction m with
  | nil => rfl
  | cons c rest ih =>
    show ((if keepNameChar c then c else '_') :: cleanNameL rest).any _ = _
    rw [List.any_cons, List.any_cons, ih,
      decide_eq_decide.mpr (not_congr (cleanChar_dot_iff c))]

theorem cleanName_take (d : Nat) (l : List Char) :
    (cleanNameL l).take d = cleanNameL (l.take d) := by
  simp [cleanNameL, List.map_take]

theorem cleanName_drop (d : Nat) (l : List Char) :
    (cleanNameL l).drop d = cleanNameL (l.drop d) := by
  simp [cleanNameL, List.map_drop]

theorem splitext_cleanName (l : List Char) (h : '/' ∉ l) :
    splitextL (cleanNameL l) = (cleanNameL (splitextL l).1, cleanNameL (splitextL l).2) := by
  rw [splitextL, splitextL, idxLast_slash_none l h,
    idxLast_slash_none (cleanNameL l) (cleanName_no_slash l), idxLast_dot_cleanName l]
  cases hd : idxLast (fun c => decide (c = '.')) l with
  | none => simp [cleanNameL]
  | some d =>
    simp only [List.drop_zero, Nat.sub_zero]
    have hcond : (((cleanNameL l).take d).any fun c => decide (c ≠ '.')) =
        ((l.take d).any fun c => decide (c ≠ '.')) := by
      rw [cleanName_take]
      exact cleanName_any_ne_dot (l.take d)
    by_cases hc : ((l.take d).any fun c => decide (c ≠ '.')) = true
    · rw [if_pos ⟨Nat.zero_le d, hcond.trans hc⟩, if_pos ⟨Nat.zero_le d, hc⟩]
      rw [cleanName_take, cleanName_drop]
    · rw [if_neg (fun hcon => hc (hcond ▸ hcon.2)), if_neg (fun hcon => hc hcon.2)]
      simp [cleanNameL]

theorem cleanName_jpg : cleanNameL (".jpg".data) = ".jpg".data := by decide

theorem cleanName_append (a b : List Char) :
    cleanNameL (a ++ b) = cleanNameL a ++ cleanNameL b := by
  simp [cleanNameL]

theorem generalName_grouped_eq_flat (url : List Char) :
    generalNameGroupedL url = generalNameFlatL url := by
  rw [generalNameGroupedL, generalNameFlatL]
  have hb : '/' ∉ basenameL (urlparsePathL url) := basename_no_slash _
  have hsc := splitext_cleanName (basenameL (urlparsePathL url)) hb
  by_cases hx : (splitextL (basenameL (urlparsePathL url))).2 = []
  · rw [if_pos hx, if_pos (by rw [hsc, hx]; rfl), cleanName_append, cleanName_jpg]
  · rw [if_neg hx, if_neg ?_]
    intro hcon
    rw [hsc] at hcon
    exact hx (by simpa [cleanNameL] using hcon)

theorem noSlashStart_of_not_mem (l : List Char) (h : '/' ∉ l) :
    startsWithL l ['/'] = false := by
  cases l with
  | nil => rfl
  | cons c rest =>
    rw [startsWithL_slash_cons]
    simp only [decide_eq_false_iff_not]
    intro hc
    exact h (hc ▸ List.mem_cons_self c rest)

theorem noSlashStart_append (a b : List Char) (ha : startsWithL a ['/'] = false)
    (hb : startsWithL b ['/'] = false) : startsWithL (a ++ b) ['/'] = false := by
  cases a with
  | nil => simpa using hb
  | cons c rest =>
    rw [List.cons_append, startsWithL_slash_cons]
    rwa [startsWithL_slash_cons] at ha

theorem pjoinL_inj (d a b : List Char) (ha : startsWithL a ['/'] = false)
    (hb : startsWithL b ['/'] = false) (h : pjoinL d a = pjoinL d b) : a = b := by
  rw [pjoinL, pjoinL, ha, hb] at h
  simp only [Bool.false_eq_true, if_false] at h
  split_ifs at h
  · exact h
  · exact List.append_cancel_left h
  · have h2 := List.append_cancel_left h
    injection h2

/-! ## Derived filenames never start with a slash -/

theorem noSlashStart_generalFlat (url : List Char) :
    startsWithL (generalNameFlatL url) ['/'] = false := by
  have h1 : startsWithL (cleanNameL (basenameL (urlparsePathL url))) ['/'] = false :=
    noSlashStart_of_not_mem _ (cleanName_no_slash _)
  simp only [generalNameFlatL]
  split
  · exact noSlashStart_append _ _ h1 rfl
  · exact h1

theorem noSlashStart_flatDerive (pyHash : List Char → Nat) (url : List Char) :
    startsWithL (flatDeriveL pyHash url) ['/'] = false := by
  rw [flatDeriveL]
  split
  · split
    · rfl
    · rfl
  · exact noSlashStart_generalFlat url

theorem noSlashStart_cleanText_take (l : List Char) (n : Nat) :
    startsWithL ((cleanTextL l).take n) ['/'] = false :=
  noSlashStart_of_not_mem _ (fun hm => cleanText_no_slash l (List.take_subset n _ hm))

theorem noSlashStart_generalGrouped (url : List Char) :
    startsWithL (generalNameGroupedL url) ['/'] = false := by
  rw [generalName_grouped_eq_flat]
  exact noSlashStart_generalFlat url

set_option maxHeartbeats 1000000 in
theorem noSlashStart_groupedDerive (url alt title : List Char) :
    startsWithL (groupedDeriveL url alt title).1 ['/'] = false := by
  have himg : ∀ X : List Char, startsWithL ("image_".data ++ X) ['/'] = false := fun _ => rfl
  have h1 : ∀ l X : List Char, startsWithL (cleanNameL l ++ '_' :: X) ['/'] = false :=
    fun l X => noSlashStart_append _ _ (noSlashStart_of_not_mem _ (cleanName_no_slash l)) rfl
  have h2 : ∀ (l : List Char) (n : Nat) (X : List Char),
      startsWithL ((cleanTextL l).take n ++ '_' :: X) ['/'] = false :=
    fun l n X => noSlashStart_append _ _ (noSlashStart_cleanText_take l n) rfl
  rw [groupedDeriveL]
  split
  · cases ho : origSearch url with
    | some o =>
      cases hu : uuidSearch url with
      | some uuid =>
        dsimp only
        split_ifs
        · exact h1 _ _
        · exact h2 _ _ _
        · exact h2 _ _ _
        · exact himg _
      | none =>
        dsimp only
        split_ifs
        · exact h1 _ _
        · exact himg _
    | none =>
      cases hu : uuidSearch url with
      | some uuid =>
        dsimp only
        split_ifs
        · rfl
        · exact h2 _ _ _
        · exact h2 _ _ _
        · exact himg _
      | none =>
        dsimp only
        split_ifs
        · rfl
        · exact himg _
  · dsimp only
    split_ifs
    · exact h2 _ _ _
    · exact h2 _ _ _
    · exact noSlashStart_generalGrouped url
    · exact noSlashStart_generalGrouped url

/-! ## The shared download block -/

theorem itemStep_used (fetch : String → FetchResult) (dir : String) (st : DlState)
    (url : String) (rawName : List Char) :
    (itemStep fetch dir st url rawName).2.used = uniqueNameL st.used rawName :: st.used := by
  rw [itemStep]
  cases fetch url with
  | err => rfl
  | ok ct body => dsimp only; split <;> rfl

theorem itemStep_count (fetch : String → FetchResult) (dir : String) (st : DlState)
    (url : String) (rawName : List Char) :
    (itemStep fetch dir st url rawName).2.count = st.count ∨
      (itemStep fetch dir st url rawName).2.count = st.count + 1 := by
  rw [itemStep]
  cases fetch url with
  | err => exact Or.inl rfl
  | ok ct body =>
    dsimp only
    split
    · exact Or.inr rfl
    · exact Or.inl rfl

theorem itemStep_savePaths (fetch : String → FetchResult) (dir : String) (st : DlState)
    (url : String) (rawName : List Char) :
    savePaths (itemStep fetch dir st url rawName).1 = [] ∨
      savePaths (itemStep fetch dir st url rawName).1 =
        [(⟨pjoinL dir.data (uniqueNameL st.used rawName)⟩ : String)] := by
  rw [itemStep]
  cases fetch url with
  | err => exact Or.inl rfl
  | ok ct body =>
    dsimp only
    split
    · exact Or.inr rfl
    · exact Or.inl rfl

theorem itemStep_attempts (fetch : String → FetchResult) (dir : String) (st : DlState)
    (url : String) (rawName : List Char) :
    attemptUrls (itemStep fetch dir st url rawName).1 = [url] := by
  rw [itemStep]
  cases fetch url with
  | err => rfl
  | ok ct body => dsimp only; split <;> rfl

theorem itemStep_sleeps_eq_saves (fetch : String → FetchResult) (dir : String) (st : DlState)
    (url : String) (rawName : List Char) :
    countSleeps (itemStep fetch dir st url rawName).1 =
      countSaves (itemStep fetch dir st url rawName).1 := by
  rw [itemStep]
  cases fetch url with
  | err => rfl
  | ok ct body => dsimp only; split <;> rfl

/-! ## Trace decomposition -/

theorem savePaths_append (a b : List Event) :
    savePaths (a ++ b) = savePaths a ++ savePaths b := by
  simp [savePaths]

theorem attemptUrls_append (a b : List Event) :
    attemptUrls (a ++ b) = attemptUrls a ++ attemptUrls b := by
  simp [attemptUrls]

theorem countSleeps_append (a b : List Event) :
    countSleeps (a ++ b) = countSleeps a + countSleeps b := by
  simp [countSleeps]

theorem countSaves_append (a b : List Event) :
    countSaves (a ++ b) = countSaves a + countSaves b := by
  simp [countSaves]

theorem runFold_cons {α : Type} (step : DlState → α → List Event × DlState) (t : α)
    (ts : List α) (st : DlState) :
    runFold step (t :: ts) st =
      ((step st t).1 ++ (runFold step ts (step st t).2).1,
        (runFold step ts (step st t).2).2) := rfl

/-- Per-scope uniqueness: if every processed item either leaves the state
unchanged with no save, or reserves one fresh slash-free name and saves at
most once under it, then the saved paths of the whole fold are pairwise
distinct. -/
theorem runFold_savePaths {α : Type} (step : DlState → α → List Event × DlState)
    (dir : String) :
    ∀ (items : List α) (st : DlState),
      (∀ (st2 : DlState) (t : α), t ∈ items →
        ((step st2 t).2.used = st2.used ∧ savePaths (step st2 t).1 = []) ∨
        ∃ fn, (step st2 t).2.used = fn :: st2.used ∧ fn ∉ st2.used ∧
          startsWithL fn ['/'] = false ∧
          (savePaths (step st2 t).1 = [] ∨
            savePaths (step st2 t).1 = [(⟨pjoinL dir.data fn⟩ : String)])) →
      (savePaths (runFold step items st).1).Nodup ∧
      ∀ p ∈ savePaths (runFold step items st).1, ∃ fn,
        fn ∉ st.used ∧ startsWithL fn ['/'] = false ∧ p = ⟨pjoinL dir.data fn⟩ := by
  intro items
  induction items with
  | nil =>
    intro st _
    exact ⟨List.nodup_nil, by simp [runFold, savePaths]⟩
  | cons t ts ih =>
    intro st hstep
    have hrest := ih (step st t).2 (fun st2 t2 h2 => hstep st2 t2 (List.mem_cons_of_mem t h2))
    obtain ⟨ihn, ihp⟩ := hrest
    rw [runFold_cons]
    dsimp only
    rw [savePaths_append]
    rcases hstep st t (List.mem_cons_self t ts) with ⟨hu, hp⟩ | ⟨fn, hu, hm, hs, hp⟩
    · rw [hp, List.nil_append]
      rw [hu] at ihp
      exact ⟨ihn, ihp⟩
    · rw [hu] at ihp
      rcases hp with hp | hp
      · rw [hp, List.nil_append]
        refine ⟨ihn, ?_⟩
        intro p hpmem
        obtain ⟨fn2, hfn2, hs2, he2⟩ := ihp p hpmem
        exact ⟨fn2, fun hc => hfn2 (List.mem_cons_of_mem _ hc), hs2, he2⟩
      · rw [hp, List.singleton_append]
        constructor
        · rw [List.nodup_cons]
          refine ⟨?_, ihn⟩
          intro hc
          obtain ⟨fn2, hfn2, hs2, he2⟩ := ihp _ hc
          have hd := congrArg String.data he2
          have heq : fn = fn2 := pjoinL_inj dir.data fn fn2 hs hs2 hd
          exact hfn2 (heq ▸ List.mem_cons_self fn st.used)
        · intro p hpmem
          rcases List.mem_cons.mp hpmem with hp1 | hp1
          · exact ⟨fn, hm, hs, hp1⟩
          · obtain ⟨fn2, hfn2, hs2, he2⟩ := ihp p hp1
            exact ⟨fn2, fun hc => hfn2 (List.mem_cons_of_mem _ hc), hs2, he2⟩

theorem runFold_sleeps {α : Type} (step : DlState → α → List Event × DlState)
    (hstep : ∀ st t, countSleeps (step st t).1 = countSaves (step st t).1) :
    ∀ (items : List α) (st : DlState),
      countSleeps (runFold step items st).1 = countSaves (runFold step items st).1 := by
  intro items
  induction items with
  | nil => intro st; rfl
  | cons t ts ih =>
    intro st
    rw [runFold_cons]
    dsimp only
    rw [countSleeps_append, countSaves_append, hstep st t, ih (step st t).2]

theorem runFold_attempts {α : Type} (step : DlState → α → List Event × DlState)
    (P : String → Bool) :
    ∀ (items : List α) (st : DlState),
      (∀ (st2 : DlState) (t : α), t ∈ items → (attemptUrls (step st2 t).1).all P = true) →
      (attemptUrls (runFold step items st).1).all P = true := by
  intro items
  induction items with
  | nil => intro st _; rfl
  | cons t ts ih =>
    intro st hstep
    rw [runFold_cons]
    dsimp only
    rw [attemptUrls_append, List.all_append]
    rw [hstep st t (List.mem_cons_self t ts),
      ih (step st t).2 (fun st2 t2 h2 => hstep st2 t2 (List.mem_cons_of_mem t h2))]
    rfl

/-! ## Step specifications -/

theorem flatTagStep_spec (pyHash : List Char → Nat) (fetch : String → FetchResult)
    (pageUrl folder : String) (st : DlState) (t : ImgTag) :
    ((flatTagStep pyHash fetch pageUrl folder st t).2.used = st.used ∧
      savePaths (flatTagStep pyHash fetch pageUrl folder st t).1 = []) ∨
    ∃ fn, (flatTagStep pyHash fetch pageUrl folder st t).2.used = fn :: st.used ∧
      fn ∉ st.used ∧ startsWithL fn ['/'] = false ∧
      (savePaths (flatTagStep pyHash fetch pageUrl folder st t).1 = [] ∨
        savePaths (flatTagStep pyHash fetch pageUrl folder st t).1 =
          [(⟨pjoinL folder.data fn⟩ : String)]) := by
  rw [flatTagStep]
  cases pickSrc t with
  | none => exact Or.inl ⟨rfl, rfl⟩
  | some r =>
    dsimp only
    split_ifs with h1 h2
    · exact Or.inl ⟨rfl, rfl⟩
    · exact Or.inl ⟨rfl, rfl⟩
    · refine Or.inr ⟨uniqueNameL st.used
        (flatDeriveL pyHash (resolveRefL pageUrl.data r.data)), ?_, ?_, ?_, ?_⟩
      · exact itemStep_used ..
      · exact uniqueNameL_not_mem st.used _
      · exact uniqueNameL_noSlash _ _ (noSlashStart_flatDerive pyHash _)
      · exact itemStep_savePaths ..

theorem flatTagStep_sleeps (pyHash : List Char → Nat) (fetch : String → FetchResult)
    (pageUrl folder : String) (st : DlState) (t : ImgTag) :
    countSleeps (flatTagStep pyHash fetch pageUrl folder st t).1 =
      countSaves (flatTagStep pyHash fetch pageUrl folder st t).1 := by
  rw [flatTagStep]
  cases pickSrc t with
  | none => rfl
  | some r =>
    dsimp only
    split_ifs
    · rfl
    · rfl
    · exact itemStep_sleeps_eq_saves ..

theorem flatTagStep_attempts (pyHash : List Char → Nat) (fetch : String → FetchResult)
    (pageUrl folder : String) (st : DlState) (t : ImgTag) :
    (attemptUrls (flatTagStep pyHash fetch pageUrl folder st t).1).all
      (fun u => !badUrlL u.data) = true := by
  rw [flatTagStep]
  cases pickSrc t with
  | none => rfl
  | some r =>
    dsimp only
    split_ifs with h1 h2
    · rfl
    · rfl
    · rw [itemStep_attempts]
      simp only [List.all_cons, List.all_nil, Bool.and_true]
      simpa using h2

theorem groupStep_sleeps (fetch : String → FetchResult) (dir : String) (st : DlState)
    (i : Info) :
    countSleeps (groupStep fetch dir st i).1 = countSaves (groupStep fetch dir st i).1 :=
  itemStep_sleeps_eq_saves ..

theorem groupStep_spec (fetch : String → FetchResult) (dir : String) (st : DlState)
    (i : Info) (hslash : startsWithL i.filename ['/'] = false) :
    ((groupStep fetch dir st i).2.used = st.used ∧
      savePaths (groupStep fetch dir st i).1 = []) ∨
    ∃ fn, (groupStep fetch dir st i).2.used = fn :: st.used ∧
      fn ∉ st.used ∧ startsWithL fn ['/'] = false ∧
      (savePaths (groupStep fetch dir st i).1 = [] ∨
        savePaths (groupStep fetch dir st i).1 = [(⟨pjoinL dir.data fn⟩ : String)]) :=
  Or.inr ⟨uniqueNameL st.used i.filename, itemStep_used .., uniqueNameL_not_mem st.used _,
    uniqueNameL_noSlash _ _ hslash, itemStep_savePaths ..⟩

/-! ## Collected records and groups -/

theorem mkInfo_ok (pageUrl : String) (t : ImgTag) (i : Info)
    (h : mkInfo pageUrl t = some i) :
    badUrlL i.url.data = false ∧ startsWithL i.filename ['/'] = false := by
  rw [mkInfo] at h
  cases hp : pickSrc t with
  | none => rw [hp] at h; exact absurd h (by simp)
  | some r =>
    rw [hp] at h
    dsimp only at h
    split_ifs at h with h1 h2
    rw [Option.some.injEq] at h
    subst h
    exact ⟨by simpa using h2, noSlashStart_groupedDerive _ _ _⟩

theorem collectInfos_ok (pageUrl : String) (tags : List ImgTag) :
    ∀ i ∈ collectInfos pageUrl tags,
      badUrlL i.url.data = false ∧ startsWithL i.filename ['/'] = false := by
  intro i hi
  rw [collectInfos] at hi
  obtain ⟨t, _, ht⟩ := List.mem_filterMap.mp hi
  exact mkInfo_ok pageUrl t i ht

theorem addGroup_mem (k : List Char) (v : Info) :
    ∀ (gs : List (List Char × List Info)), ∀ g ∈ addGroup gs k v, ∀ i ∈ g.2,
      (∃ g0 ∈ gs, i ∈ g0.2) ∨ i = v := by
  intro gs
  induction gs with
  | nil =>
    intro g hg i hi
    simp only [addGroup, List.mem_singleton] at hg
    subst hg
    simp only [List.mem_singleton] at hi
    exact Or.inr hi
  | cons g0 rest ih =>
    intro g hg i hi
    obtain ⟨k0, vs⟩ := g0
    rw [addGroup] at hg
    split_ifs at hg with hk
    · rcases List.mem_cons.mp hg with hg | hg
      · subst hg
        rcases List.mem_append.mp hi with hv | hv
        · exact Or.inl ⟨(k0, vs), List.mem_cons_self _ _, hv⟩
        · simp only [List.mem_singleton] at hv
          exact Or.inr hv
      · exact Or.inl ⟨g, List.mem_cons_of_mem _ hg, hi⟩
    · rcases List.mem_cons.mp hg with hg | hg
      · subst hg
        exact Or.inl ⟨(k0, vs), List.mem_cons_self _ _, hi⟩
      · rcases ih g hg i hi with ⟨g1, hg1, hi1⟩ | hv
        · exact Or.inl ⟨g1, List.mem_cons_of_mem _ hg1, hi1⟩
        · exact Or.inr hv

theorem buildGroups_mem_aux (C : Info → Prop) :
    ∀ (rest : List Info) (gs : List (List Char × List Info)),
      (∀ g ∈ gs, ∀ i ∈ g.2, C i) → (∀ v ∈ rest, C v) →
      ∀ g ∈ rest.foldl
        (fun gs i => addGroup gs (groupKeyL i.filename i.originalName) i) gs,
        ∀ i ∈ g.2, C i := by
  intro rest
  induction rest with
  | nil => intro gs hgs _ g hg i hi; exact hgs g hg i hi
  | cons v vs ih =>
    intro gs hgs hrest g hg i hi
    rw [List.foldl_cons] at hg
    refine ih (addGroup gs (groupKeyL v.filename v.originalName) v) ?_
      (fun v2 h2 => hrest v2 (List.mem_cons_of_mem v h2)) g hg i hi
    intro g2 hg2 i2 hi2
    rcases addGroup_mem _ v gs g2 hg2 i2 hi2 with ⟨g3, hg3, hi3⟩ | hv
    · exact hgs g3 hg3 i2 hi3
    · exact hv ▸ hrest v (List.mem_cons_self v vs)

theorem buildGroups_mem (infos : List Info) (C : Info → Prop) (hall : ∀ v ∈ infos, C v) :
    ∀ g ∈ buildGroups infos, ∀ i ∈ g.2, C i := by
  intro g hg i hi
  exact buildGroups_mem_aux C infos [] (by simp) hall g hg i hi

/-! ## Whole-run lemmas -/

theorem groupRun_sleeps (fetch : String → FetchResult) (folder : String) (c : Nat)
    (g : List Char × List Info) :
    countSleeps (groupRun fetch folder c g).1 = countSaves (groupRun fetch folder c g).1 :=
  runFold_sleeps _ (fun st i => groupStep_sleeps fetch (groupDir folder g) st i) g.2 ⟨[], c⟩

theorem orgFold_sleeps (fetch : String → FetchResult) (folder : String) :
    ∀ (gs : List (List Char × List Info)) (acc : List Event × Nat),
      countSleeps acc.1 = countSaves acc.1 →
      countSleeps (orgFold fetch folder gs acc).1 =
        countSaves (orgFold fetch folder gs acc).1 := by
  intro gs
  induction gs with
  | nil => intro acc h; exact h
  | cons g rest ih =>
    intro acc h
    rw [orgFold]
    apply ih
    dsimp only
    rw [countSleeps_append, countSaves_append, h, groupRun_sleeps]

theorem groupRun_attempts (fetch : String → FetchResult) (folder : String) (c : Nat)
    (g : List Char × List Info) (h : ∀ i ∈ g.2, badUrlL i.url.data = false) :
    (attemptUrls (groupRun fetch folder c g).1).all (fun u => !badUrlL u.data) = true := by
  apply runFold_attempts
  intro st2 i hi
  rw [groupStep, itemStep_attempts]
  simp [h i hi]

theorem orgFold_attempts (fetch : String → FetchResult) (folder : String) :
    ∀ (gs : List (List Char × List Info)) (acc : List Event × Nat),
      (attemptUrls acc.1).all (fun u => !badUrlL u.data) = true →
      (∀ g ∈ gs, ∀ i ∈ g.2, badUrlL i.url.data = false) →
      (attemptUrls (orgFold fetch folder gs acc).1).all (fun u => !badUrlL u.data) = true := by
  intro gs
  induction gs with
  | nil => intro acc h _; exact h
  | cons g rest ih =>
    intro acc h hgs
    rw [orgFold]
    apply ih
    · dsimp only
      rw [attemptUrls_append, List.all_append, h,
        groupRun_attempts fetch folder acc.2 g (hgs g (List.mem_cons_self g rest))]
      rfl
    · exact fun g2 h2 => hgs g2 (List.mem_cons_of_mem g h2)

theorem groupRun_savePaths_nodup (fetch : String → FetchResult) (folder : String) (c : Nat)
    (g : List Char × List Info) (h : ∀ i ∈ g.2, startsWithL i.filename ['/'] = false) :
    (savePaths (groupRun fetch folder c g).1).Nodup :=
  (runFold_savePaths (groupStep fetch (groupDir folder g)) (groupDir folder g) g.2 ⟨[], c⟩
    (fun st2 i hi => groupStep_spec fetch _ st2 i (h i hi))).1

theorem runFold_paths_under_dir {α : Type} (step : DlState → α → List Event × DlState)
    (dir : String)
    (hstep : ∀ st t, savePaths (step st t).1 = [] ∨
      ∃ fn, savePaths (step st t).1 = [(⟨pjoinL dir.data fn⟩ : String)]) :
    ∀ (items : List α) (st : DlState),
      ∀ p ∈ savePaths (runFold step items st).1, ∃ fn, p = ⟨pjoinL dir.data fn⟩ := by
  intro items
  induction items with
  | nil => intro st p hp; simp [runFold, savePaths] at hp
  | cons t ts ih =>
    intro st p hp
    rw [runFold_cons] at hp
    dsimp only at hp
    rw [savePaths_append] at hp
    rcases List.mem_append.mp hp with hp | hp
    · rcases hstep st t with he | ⟨fn, he⟩
      · rw [he] at hp; simp at hp
      · rw [he] at hp
        simp only [List.mem_singleton] at hp
        exact ⟨fn, hp⟩
    · exact ih (step st t).2 p hp

/-! ## CDN derivation case lemmas -/

theorem groupAt_ne_nil : ∀ (l acc g : List Char), groupAt acc l = some g → g ≠ [] := by
  intro l
  induction l with
  | nil => intro acc g h; exact absurd h (by simp [groupAt])
  | cons c rest ih =>
    intro acc g h
    rw [groupAt] at h
    split_ifs at h with h1 h2
    · rw [Option.some.injEq] at h
      subst h
      simp
    · exact ih (acc ++ [c]) g h

theorem origSearch_ne_nil : ∀ (u o : List Char), origSearch u = some o → o ≠ [] := by
  intro u
  induction u with
  | nil => intro o h; exact absurd h (by simp [origSearch])
  | cons c rest ih =>
    intro o h
    rw [origSearch] at h
    split_ifs at h with h1
    · cases hg : groupAt [] rest with
      | some g =>
        rw [hg] at h
        rw [Option.some.injEq] at h
        exact h ▸ groupAt_ne_nil rest [] g hg
      | none => rw [hg] at h; exact ih o h
    · exact ih o h

theorem cleanNameL_ne_nil (o : List Char) (h : o ≠ []) : cleanNameL o ≠ [] := by
  cases o with
  | nil => exact absurd rfl h
  | cons c rest => simp [cleanNameL]

theorem flatDeriveL_uuid (pyHash : List Char → Nat) (url uu : List Char)
    (hcdn : hasSubL ("shgcdn.com".data) url = true) (hu : uuidSearch url = some uu) :
    flatDeriveL pyHash url = "image_".data ++ uu ++ ".jpg".data := by
  rw [flatDeriveL, if_pos hcdn, hu]

theorem groupedDeriveL_uuid_orig (url alt title uu o : List Char)
    (hcdn : hasSubL ("shgcdn.com".data) url = true)
    (hu : uuidSearch url = some uu) (ho : origSearch url = some o) :
    (groupedDeriveL url alt title).1 = cleanNameL o ++ '_' :: (lastN 8 uu ++ ".jpg".data) := by
  rw [groupedDeriveL, if_pos hcdn, hu, ho]
  dsimp only
  rw [if_pos (cleanNameL_ne_nil o (origSearch_ne_nil url o ho))]

theorem groupedDeriveL_uuid_alt (url alt title uu : List Char)
    (hcdn : hasSubL ("shgcdn.com".data) url = true)
    (hu : uuidSearch url = some uu) (ho : origSearch url = none)
    (halt : alt.length > 3) :
    (groupedDeriveL url alt title).1 =
      (cleanTextL alt).take 30 ++ '_' :: (lastN 8 uu ++ ".jpg".data) := by
  rw [groupedDeriveL, if_pos hcdn, hu, ho]
  dsimp only
  rw [if_neg (by simp), if_pos halt]

theorem groupedDeriveL_uuid_title (url alt title uu : List Char)
    (hcdn : hasSubL ("shgcdn.com".data) url = true)
    (hu : uuidSearch url = some uu) (ho : origSearch url = none)
    (halt : ¬ alt.length > 3) (htitle : title.length > 3) :
    (groupedDeriveL url alt title).1 =
      (cleanTextL title).take 30 ++ '_' :: (lastN 8 uu ++ ".jpg".data) := by
  rw [groupedDeriveL, if_pos hcdn, hu, ho]
  dsimp only
  rw [if_neg (by simp), if_neg halt, if_pos htitle]

theorem groupedDeriveL_uuid_plain (url alt title uu : List Char)
    (hcdn : hasSubL ("shgcdn.com".data) url = true)
    (hu : uuidSearch url = some uu) (ho : origSearch url = none)
    (halt : ¬ alt.length > 3) (htitle : ¬ title.length > 3) :
    (groupedDeriveL url alt title).1 = "image_".data ++ uu ++ ".jpg".data := by
  rw [groupedDeriveL, if_pos hcdn, hu, ho]
  dsimp only
  rw [if_neg (by simp), if_neg halt, if_neg htitle]

theorem groupedDeriveL_hash_orig (url alt title o : List Char)
    (hcdn : hasSubL ("shgcdn.com".data) url = true)
    (hu : uuidSearch url = none) (ho : origSearch url = some o) :
    (groupedDeriveL url alt title).1 =
      cleanNameL o ++ '_' :: ((md5HexL url).take 8 ++ ".jpg".data) := by
  rw [groupedDeriveL, if_pos hcdn, hu, ho]
  dsimp only
  rw [if_pos (cleanNameL_ne_nil o (origSearch_ne_nil url o ho))]

theorem groupedDeriveL_hash_plain (url alt title : List Char)
    (hcdn : hasSubL ("shgcdn.com".data) url = true)
    (hu : uuidSearch url = none) (ho : origSearch url = none) :
    (groupedDeriveL url alt title).1 = "image_".data ++ (md5HexL url).take 12 ++ ".jpg".data := by
  rw [groupedDeriveL, if_pos hcdn, hu, ho]
  dsimp only
  rw [if_neg (by simp)]

theorem groupedDeriveL_general (url alt title : List Char)
    (hcdn : hasSubL ("shgcdn.com".data) url = false)
    (hgen : ¬ (generalNameGroupedL url ∈ genericNames ∨ (generalNameGroupedL url).length < 5)) :
    (groupedDeriveL url alt title).1 = generalNameFlatL url := by
  rw [groupedDeriveL, if_neg (by simp [hcdn])]
  dsimp only
  rw [if_neg hgen, generalName_grouped_eq_flat]

theorem groupedDeriveL_generic_alt (url alt title : List Char)
    (hcdn : hasSubL ("shgcdn.com".data) url = false)
    (hgen : generalNameGroupedL url ∈ genericNames ∨ (generalNameGroupedL url).length < 5)
    (halt : alt.length > 3) :
    (groupedDeriveL url alt title).1 =
      (cleanTextL alt).take 30 ++ '_' :: ((md5HexL url).take 8 ++ ".jpg".data) := by
  rw [groupedDeriveL, if_neg (by simp [hcdn])]
  dsimp only
  rw [if_pos hgen, if_pos halt]

theorem groupedDeriveL_generic_title (url alt title : List Char)
    (hcdn : hasSubL ("shgcdn.com".data) url = false)
    (hgen : generalNameGroupedL url ∈ genericNames ∨ (generalNameGroupedL url).length < 5)
    (halt : ¬ alt.length > 3) (htitle : title.length > 3) :
    (groupedDeriveL url alt title).1 =
      (cleanTextL title).take 30 ++ '_' :: ((md5HexL url).take 8 ++ ".jpg".data) := by
  rw [groupedDeriveL, if_neg (by simp [hcdn])]
  dsimp only
  rw [if_pos hgen, if_neg halt, if_pos htitle]

theorem groupedDeriveL_generic_plain (url alt title : List Char)
    (hcdn : hasSubL ("shgcdn.com".data) url = false)
    (hgen : generalNameGroupedL url ∈ genericNames ∨ (generalNameGroupedL url).length < 5)
    (halt : ¬ alt.length > 3) (htitle : ¬ title.length > 3) :
    (groupedDeriveL url alt title).1 = generalNameFlatL url := by
  rw [groupedDeriveL, if_neg (by simp [hcdn])]
  dsimp only
  rw [if_pos hgen, if_neg halt, if_neg htitle, generalName_grouped_eq_flat]

theorem flatDeriveL_general (pyHash : List Char → Nat) (url : List Char)
    (hcdn : hasSubL ("shgcdn.com".data) url = false) :
    flatDeriveL pyHash url = generalNameFlatL url := by
  rw [flatDeriveL, if_neg (by simp [hcdn])]

/-! ## Outcome case equations of the shared download block -/

theorem itemStep_err (fetch : String → FetchResult) (dir : String) (st : DlState)
    (url : String) (rawName : List Char) (hf : fetch url = .err) :
    itemStep fetch dir st url rawName =
      ([.attempt url, .fetchFail url],
        ⟨uniqueNameL st.used rawName :: st.used, st.count⟩) := by
  rw [itemStep, hf]

theorem itemStep_skip (fetch : String → FetchResult) (dir : String) (st : DlState)
    (url : String) (rawName : List Char) (ct : String) (body : List Nat)
    (hf : fetch url = .ok ct body)
    (hct : startsWithL ct.data ("image/".data) = false) :
    itemStep fetch dir st url rawName =
      ([.attempt url, .skipContent url ct],
        ⟨uniqueNameL st.used rawName :: st.used, st.count⟩) := by
  rw [itemStep, hf]
  dsimp only
  rw [if_neg (by simp [hct])]

theorem itemStep_save (fetch : String → FetchResult) (dir : String) (st : DlState)
    (url : String) (rawName : List Char) (ct : String) (body : List Nat)
    (hf : fetch url = .ok ct body)
    (hct : startsWithL ct.data ("image/".data) = true) :
    itemStep fetch dir st url rawName =
      ([.attempt url,
        .save ⟨pjoinL dir.data (uniqueNameL st.used rawName)⟩ body, .sleep 5],
        ⟨uniqueNameL st.used rawName :: st.used, st.count + 1⟩) := by
  rw [itemStep, hf]
  dsimp only
  rw [if_pos hct]

theorem download_images_flat_sleeps (pyHash : List Char → Nat)
    (fetch : String → FetchResult) (pageUrl folder : String) (page : PageResult) :
    countSleeps (download_images_flat pyHash fetch pageUrl folder page) =
      countSaves (download_images_flat pyHash fetch pageUrl folder page) := by
  cases page with
  | err => rfl
  | ok tags =>
    simp only [download_images_flat]
    rw [countSleeps_append, countSaves_append,
      runFold_sleeps _ (fun st t => flatTagStep_sleeps pyHash fetch _ folder st t) tags ⟨[], 0⟩]
    rfl

theorem download_images_organized_sleeps (fetch : String → FetchResult)
    (pageUrl folder : String) (page : PageResult) :
    countSleeps (download_images_organized fetch pageUrl folder page) =
      countSaves (download_images_organized fetch pageUrl folder page) := by
  cases page with
  | err => rfl
  | ok tags =>
    simp only [download_images_organized]
    rw [countSleeps_append, countSaves_append,
      orgFold_sleeps fetch folder _ ([], 0) rfl]
    rfl

/-! # Claims -/

/-- C1, counterexample: in the grouped variant two different singleton groups
(key `sunset` via the CDN original name, key `sunset_` via the filename's
leading letters-and-underscores run) both derive the filename
`sunset_14174000.jpg` and both write it directly into the output root, so two
images are written to the same path in the output root, refuting the claim's
"no two images are ever written to the same path in the output root". -/
theorem c1_counterexample :
    savePaths (download_images_organized (fun _ => .ok "image/jpeg" [])
      "https://site.example/page" "out" (.ok [
        ⟨some "https://a.shgcdn.com/123e4567-e89b-12d3-a456-426614174000/-/sunset-format/",
          none, none, "", ""⟩,
        ⟨some "https://site.example/sunset_14174000.jpg", none, none, "", ""⟩])) =
      ["out/sunset_14174000.jpg", "out/sunset_14174000.jpg"] ∧
    ¬ (savePaths (download_images_organized (fun _ => .ok "image/jpeg" [])
      "https://site.example/page" "out" (.ok [
        ⟨some "https://a.shgcdn.com/123e4567-e89b-12d3-a456-426614174000/-/sunset-format/",
          none, none, "", ""⟩,
        ⟨some "https://site.example/sunset_14174000.jpg", none, none, "", ""⟩]))).Nodup := by
  exact ⟨by decide, by decide⟩

/-- C1 (amended): filenames are pairwise distinct within each
collision-tracking scope — the global set of the flat variant, so a flat run
never writes two images to the same path, and the per-group set of the
grouped variant, so no two images of one group share a path.  (Distinct
singleton groups may still write the same filename into the shared output
root, as the counterexample shows.) -/
theorem c1_filename_uniqueness :
    (∀ (pyHash : List Char → Nat) (fetch : String → FetchResult)
      (pageUrl folder : String) (page : PageResult),
      (savePaths (download_images_flat pyHash fetch pageUrl folder page)).Nodup) ∧
    (∀ (fetch : String → FetchResult) (pageUrl folder : String) (tags : List ImgTag),
      ∀ g ∈ buildGroups (collectInfos ⟨normPageUrlL pageUrl.data⟩ tags), ∀ c : Nat,
        (savePaths (groupRun fetch folder c g).1).Nodup) := by
  constructor
  · intro pyHash fetch pageUrl folder page
    cases page with
    | err => exact List.nodup_nil
    | ok tags =>
      simp only [download_images_flat]
      rw [savePaths_append]
      have h := (runFold_savePaths
        (flatTagStep pyHash fetch ⟨normPageUrlL pageUrl.data⟩ folder) folder tags ⟨[], 0⟩
        (fun st2 t _ => flatTagStep_spec pyHash fetch _ folder st2 t)).1
      simpa [savePaths] using h
  · intro fetch pageUrl folder tags g hg c
    exact groupRun_savePaths_nodup fetch folder c g
      (buildGroups_mem _ (fun i => startsWithL i.filename ['/'] = false)
        (fun v hv => (collectInfos_ok _ tags v hv).2) g hg)

/-- C1 witness: the grouped per-scope uniqueness applied to the concrete
single group produced by one `sunset_01.jpg` tag. -/
theorem c1_filename_uniqueness_witness :
    (savePaths (groupRun (fun _ => .ok "image/jpeg" []) "out" 0
      ("sunset_".data,
        [⟨"https://site.example/sunset_01.jpg", "sunset_01.jpg".data, "", "", []⟩])).1).Nodup :=
  c1_filename_uniqueness.2 (fun _ => .ok "image/jpeg" []) "https://site.example/page" "out"
    [⟨some "https://site.example/sunset_01.jpg", none, none, "", ""⟩]
    ("sunset_".data,
      [⟨"https://site.example/sunset_01.jpg", "sunset_01.jpg".data, "", "", []⟩])
    (by decide) 0

/-- C2: for a resolved URL containing the CDN marker `shgcdn.com`, the grouped
variant names the file by priority: cleaned original-name + last 8 hex of the
UUID; else cleaned alt (length > 3, 30-char cap) + last 8 hex; else cleaned
title (length > 3, 30-char cap) + last 8 hex; else `image_<full-uuid>.jpg`;
with no UUID: cleaned original-name + 8-hex MD5 of the URL, else
`image_<12-hex MD5 of the URL>.jpg`.  The spec's example URL with UUID
`123e4567-e89b-12d3-a456-426614174000`, no original-name segment, no alt and
no title derives `image_123e4567-e89b-12d3-a456-426614174000.jpg` in both
variants. -/
theorem c2_cdn_name_priority (url alt title : String)
    (hcdn : hasSubL ("shgcdn.com".data) url.data = true) :
    (∀ uu o, uuidSearch url.data = some uu → origSearch url.data = some o →
      (groupedDerive url alt title).1 =
        ⟨cleanNameL o ++ '_' :: (lastN 8 uu ++ ".jpg".data)⟩) ∧
    (∀ uu, uuidSearch url.data = some uu → origSearch url.data = none →
      alt.length > 3 →
      (groupedDerive url alt title).1 =
        ⟨(cleanTextL alt.data).take 30 ++ '_' :: (lastN 8 uu ++ ".jpg".data)⟩) ∧
    (∀ uu, uuidSearch url.data = some uu → origSearch url.data = none →
      ¬ alt.length > 3 → title.length > 3 →
      (groupedDerive url alt title).1 =
        ⟨(cleanTextL title.data).take 30 ++ '_' :: (lastN 8 uu ++ ".jpg".data)⟩) ∧
    (∀ uu, uuidSearch url.data = some uu → origSearch url.data = none →
      ¬ alt.length > 3 → ¬ title.length > 3 →
      (groupedDerive url alt title).1 = ⟨"image_".data ++ uu ++ ".jpg".data⟩) ∧
    (∀ o, uuidSearch url.data = none → origSearch url.data = some o →
      (groupedDerive url alt title).1 =
        ⟨cleanNameL o ++ '_' :: ((md5HexL url.data).take 8 ++ ".jpg".data)⟩) ∧
    (uuidSearch url.data = none → origSearch url.data = none →
      (groupedDerive url alt title).1 =
        ⟨"image_".data ++ (md5HexL url.data).take 12 ++ ".jpg".data⟩) ∧
    ((groupedDerive "https://x.shgcdn.com/123e4567-e89b-12d3-a456-426614174000/" "" "").1 =
      "image_123e4567-e89b-12d3-a456-426614174000.jpg") ∧
    (∀ pyHash : List Char → Nat,
      flatDerive pyHash "https://x.shgcdn.com/123e4567-e89b-12d3-a456-426614174000/" =
        "image_123e4567-e89b-12d3-a456-426614174000.jpg") := by
  refine ⟨?_, ?_, ?_, ?_, ?_, ?_, ?_, ?_⟩
  · intro uu o hu ho
    exact congrArg String.mk (groupedDeriveL_uuid_orig url.data alt.data title.data uu o hcdn hu ho)
  · intro uu hu ho halt
    exact congrArg String.mk (groupedDeriveL_uuid_alt url.data alt.data title.data uu hcdn hu ho halt)
  · intro uu hu ho halt htitle
    exact congrArg String.mk
      (groupedDeriveL_uuid_title url.data alt.data title.data uu hcdn hu ho halt htitle)
  · intro uu hu ho halt htitle
    exact congrArg String.mk
      (groupedDeriveL_uuid_plain url.data alt.data title.data uu hcdn hu ho halt htitle)
  · intro o hu ho
    exact congrArg String.mk (groupedDeriveL_hash_orig url.data alt.data title.data o hcdn hu ho)
  · intro hu ho
    exact congrArg String.mk (groupedDeriveL_hash_plain url.data alt.data title.data hcdn hu ho)
  · decide
  · intro pyHash
    refine congrArg String.mk ?_
    rw [flatDeriveL_uuid pyHash _ ("123e4567-e89b-12d3-a456-426614174000".data)
      (by decide) (by decide)]
    decide

/-- C2 witness: the priority rules applied at the spec's example URL, with the
UUID branch and empty alt/title discharged concretely. -/
theorem c2_cdn_name_priority_witness :
    (groupedDerive "https://x.shgcdn.com/123e4567-e89b-12d3-a456-426614174000/" "" "").1 =
      ⟨"image_".data ++ "123e4567-e89b-12d3-a456-426614174000".data ++ ".jpg".data⟩ :=
  (c2_cdn_name_priority "https://x.shgcdn.com/123e4567-e89b-12d3-a456-426614174000/" "" ""
    (by decide)).2.2.2.1 ("123e4567-e89b-12d3-a456-426614174000".data)
    (by decide) (by decide) (by decide) (by decide)

/-- C3, counterexample: for the non-CDN URL `https://site.example/img.jpg`
with alt text `sunset photo`, the grouped variant does not derive the cleaned
last path segment `img.jpg`; its generic-name fallback substitutes the
cleaned alt text plus the 8-hex MD5 prefix of the URL, refuting the claim's
"for every resolved non-CDN URL, the derived filename is the last path
segment ...". -/
theorem c3_counterexample :
    (groupedDerive "https://site.example/img.jpg" "sunset photo" "").1 ≠
      generalName "https://site.example/img.jpg" ∧
    (groupedDerive "https://site.example/img.jpg" "sunset photo" "").1 =
      "sunset_photo_10a91de3.jpg" ∧
    generalName "https://site.example/img.jpg" = "img.jpg" := by
  exact ⟨by decide, by decide, by decide⟩

/-- C3 (amended): for a resolved non-CDN URL, the flat variant always derives
the last path segment of the URL, cleaned to `[A-Za-z0-9_.-]` with `.jpg`
appended when extensionless (`generalName`); the grouped variant derives the
same string — the two variants' general paths agree even though they apply
cleaning and extension-appending in opposite orders — unless that string is
generic (`image.jpg`, `img.jpg`, `picture.jpg`, `.jpg`) or shorter than 5
characters and alt or title text of length > 3 exists, in which case the
cleaned 30-char-capped alt (else title) plus an 8-hex MD5 of the URL is used
instead.  The spec example holds: `https://site.example/thumb` derives
`thumb.jpg` in both variants. -/
theorem c3_general_name (url alt title : String)
    (hncdn : hasSubL ("shgcdn.com".data) url.data = false) :
    (∀ pyHash : List Char → Nat, flatDerive pyHash url = generalName url) ∧
    (generalNameGroupedL url.data = generalNameFlatL url.data) ∧
    (¬ (generalNameGroupedL url.data ∈ genericNames ∨
        (generalNameGroupedL url.data).length < 5) →
      (groupedDerive url alt title).1 = generalName url) ∧
    ((generalNameGroupedL url.data ∈ genericNames ∨
        (generalNameGroupedL url.data).length < 5) →
      alt.length > 3 →
      (groupedDerive url alt title).1 =
        ⟨(cleanTextL alt.data).take 30 ++ '_' :: ((md5HexL url.data).take 8 ++ ".jpg".data)⟩) ∧
    ((generalNameGroupedL url.data ∈ genericNames ∨
        (generalNameGroupedL url.data).length < 5) →
      ¬ alt.length > 3 → title.length > 3 →
      (groupedDerive url alt title).1 =
        ⟨(cleanTextL title.data).take 30 ++ '_' :: ((md5HexL url.data).take 8 ++ ".jpg".data)⟩) ∧
    ((generalNameGroupedL url.data ∈ genericNames ∨
        (generalNameGroupedL url.data).length < 5) →
      ¬ alt.length > 3 → ¬ title.length > 3 →
      (groupedDerive url alt title).1 = generalName url) ∧
    generalName "https://site.example/thumb" = "thumb.jpg" ∧
    (groupedDerive "https://site.example/thumb" "" "").1 = "thumb.jpg" := by
  refine ⟨?_, generalName_grouped_eq_flat url.data, ?_, ?_, ?_, ?_, by decide, by decide⟩
  · intro pyHash
    exact congrArg String.mk (flatDeriveL_general pyHash url.data hncdn)
  · intro hgen
    exact congrArg String.mk (groupedDeriveL_general url.data alt.data title.data hncdn hgen)
  · intro hgen halt
    exact congrArg String.mk
      (groupedDeriveL_generic_alt url.data alt.data title.data hncdn hgen halt)
  · intro hgen halt htitle
    exact congrArg String.mk
      (groupedDeriveL_generic_title url.data alt.data title.data hncdn hgen halt htitle)
  · intro hgen halt htitle
    exact congrArg String.mk
      (groupedDeriveL_generic_plain url.data alt.data title.data hncdn hgen halt htitle)

/-- C3 witness: the amended general-path rule applied at the spec's example
`https://site.example/thumb`. -/
theorem c3_general_name_witness :
    flatDerive (fun _ => 0) "https://site.example/thumb" =
      generalName "https://site.example/thumb" :=
  (c3_general_name "https://site.example/thumb" "" "" (by decide)).1 (fun _ => 0)

/-- C4, counterexample: the spec's example filenames `sunset_01.jpg` and
`sunset_02.jpg` do not reduce to group key `sunset`: the leading
letters-and-underscores run gives key `sunset_`, and the two images are
placed in a subdirectory named `sunset_`, not `sunset`. -/
theorem c4_counterexample :
    groupKey "sunset_01.jpg" "" = "sunset_" ∧
    groupKey "sunset_01.jpg" "" ≠ "sunset" ∧
    savePaths (download_images_organized (fun _ => .ok "image/jpeg" [])
      "https://site.example/page" "out" (.ok [
        ⟨some "https://site.example/sunset_01.jpg", none, none, "", ""⟩,
        ⟨some "https://site.example/sunset_02.jpg", none, none, "", ""⟩])) =
      ["out/sunset_/sunset_01.jpg", "out/sunset_/sunset_02.jpg"] := by
  exact ⟨by decide, by decide, by decide⟩

/-- C4 (amended): a group is materialized as a subdirectory named by its group
key iff it holds more than one image, singleton groups going directly to the
output root, and every path written while processing a group lies under that
group's directory.  The spec's example filenames reduce to key `sunset_`, so
both images land in subdirectory `sunset_` (witnessed by the counterexample's
trace); a single image whose filename reduces to key `sunset` stays in the
root. -/
theorem c4_group_directory_policy :
    (∀ (folder : String) (g : List Char × List Info),
      groupDir folder g =
        if g.2.length > 1 then (⟨pjoinL folder.data g.1⟩ : String) else folder) ∧
    (∀ (fetch : String → FetchResult) (folder : String) (c : Nat)
      (g : List Char × List Info), ∀ p ∈ savePaths (groupRun fetch folder c g).1,
      ∃ fn, p = ⟨pjoinL (groupDir folder g).data fn⟩) ∧
    groupKey "sunset.jpg" "" = "sunset" ∧
    savePaths (download_images_organized (fun _ => .ok "image/jpeg" [])
      "https://site.example/page" "out" (.ok [
        ⟨some "https://site.example/sunset.jpg", none, none, "", ""⟩])) =
      ["out/sunset.jpg"] := by
  refine ⟨fun folder g => rfl, ?_, by decide, by decide⟩
  intro fetch folder c g p hp
  refine runFold_paths_under_dir (groupStep fetch (groupDir folder g)) (groupDir folder g)
    ?_ g.2 ⟨[], c⟩ p hp
  intro st i
  rcases itemStep_savePaths fetch (groupDir folder g) st i.url i.filename with h | h
  · exact Or.inl h
  · exact Or.inr ⟨uniqueNameL st.used i.filename, h⟩

/-- C4 witness: the directory rule applied to the singleton group of the
`sunset.jpg` example, whose one saved path lies directly under the output
root. -/
theorem c4_group_directory_policy_witness :
    ∃ fn, ("out/sunset.jpg" : String) =
      ⟨pjoinL (groupDir "out" ("sunset".data,
        [⟨"https://site.example/sunset.jpg", "sunset.jpg".data, "", "", []⟩])).data fn⟩ :=
  c4_group_directory_policy.2.1 (fun _ => .ok "image/jpeg" []) "out" 0
    ("sunset".data, [⟨"https://site.example/sunset.jpg", "sunset.jpg".data, "", "", []⟩])
    "out/sunset.jpg" (by decide)

/-- C5: resolution of raw image references — a root-relative reference gets
`scheme://host` prepended, a scheme-relative reference gets the page's scheme
prepended, an already absolute `http(s)` reference is used as-is, and every
other reference is resolved against the page URL by `urljoin`, whose standard
relative-resolution semantics are checked on dotted and plain relative
references. -/
theorem c5_url_resolution :
    resolveRef "https://site.example/x/y" "/a/b.png" = "https://site.example/a/b.png" ∧
    resolveRef "https://site.example/x/y" "//cdn.example/img.png" =
      "https://cdn.example/img.png" ∧
    (∀ pageUrl ref : String,
      (startsWithL ref.data ("http://".data) || startsWithL ref.data ("https://".data)) = true →
      resolveRef pageUrl ref = ref) ∧
    (∀ pageUrl ref : String,
      (startsWithL ref.data ("http://".data) || startsWithL ref.data ("https://".data)) = false →
      startsWithL ref.data ("//".data) = false →
      startsWithL ref.data ['/'] = false →
      resolveRef pageUrl ref = urljoin pageUrl ref) ∧
    urljoin "https://site.example/x/y" "../img.png" = "https://site.example/img.png" ∧
    urljoin "https://site.example/x/y" "img.png" = "https://site.example/x/img.png" ∧
    urljoin "https://site.example/x/y" "a/./b/../c.png" = "https://site.example/x/a/c.png" := by
  refine ⟨by decide, by decide, ?_, ?_, by decide, by decide, by decide⟩
  · intro pageUrl ref h
    simp only [resolveRef, resolveRefL]
    rw [if_pos h]
  · intro pageUrl ref h1 h2 h3
    simp only [resolveRef, resolveRefL, urljoin]
    rw [if_neg (by simp [h1]), if_neg (by simp [h2]), if_neg (by simp [h3])]

/-- C5 witness: the as-is rule applied to a concrete absolute reference. -/
theorem c5_url_resolution_witness :
    resolveRef "https://site.example/x/y" "http://cdn.example/a.png" =
      "http://cdn.example/a.png" :=
  c5_url_resolution.2.2.1 "https://site.example/x/y" "http://cdn.example/a.png" (by decide)

/-- C6: every URL the pipeline ever attempts to download — in either variant —
and every collected record of the grouped variant passes the discard filter:
it does not contain the inline-data marker `data:image`, is not empty, and
does not end in `.svg`. -/
theorem c6_filtered_urls :
    (∀ (pyHash : List Char → Nat) (fetch : String → FetchResult)
      (pageUrl folder : String) (page : PageResult),
      (attemptUrls (download_images_flat pyHash fetch pageUrl folder page)).all
        (fun u => !badUrlL u.data) = true) ∧
    (∀ (fetch : String → FetchResult) (pageUrl folder : String) (page : PageResult),
      (attemptUrls (download_images_organized fetch pageUrl folder page)).all
        (fun u => !badUrlL u.data) = true) ∧
    (∀ (pageUrl : String) (tags : List ImgTag),
      (collectInfos pageUrl tags).all (fun i => !badUrlL i.url.data) = true) := by
  refine ⟨?_, ?_, ?_⟩
  · intro pyHash fetch pageUrl folder page
    cases page with
    | err => rfl
    | ok tags =>
      simp only [download_images_flat]
      rw [attemptUrls_append, List.all_append]
      rw [runFold_attempts (flatTagStep pyHash fetch ⟨normPageUrlL pageUrl.data⟩ folder)
        (fun u => !badUrlL u.data) tags ⟨[], 0⟩
        (fun st2 t _ => flatTagStep_attempts pyHash fetch _ folder st2 t)]
      rfl
  · intro fetch pageUrl folder page
    cases page with
    | err => rfl
    | ok tags =>
      simp only [download_images_organized]
      rw [attemptUrls_append, List.all_append]
      rw [orgFold_attempts fetch folder
        (buildGroups (collectInfos ⟨normPageUrlL pageUrl.data⟩ tags)) ([], 0) rfl
        (buildGroups_mem _ (fun i => badUrlL i.url.data = false)
          (fun v hv => (collectInfos_ok _ tags v hv).1))]
      rfl
  · intro pageUrl tags
    rw [List.all_eq_true]
    intro i hi
    simp [(collectInfos_ok pageUrl tags i hi).1]

/-- C7: a failed page fetch (network error or non-success status) is fatal —
both variants emit only the reported error and write nothing; a failed single
image fetch produces only the attempt and failure events for that image,
leaving the count unchanged, while the fold structure continues with the
remaining images, and every run on a fetched page terminates normally with
its summary event. -/
theorem c7_error_propagation :
    (∀ (pyHash : List Char → Nat) (fetch : String → FetchResult) (pageUrl folder : String),
      download_images_flat pyHash fetch pageUrl folder .err = [.pageError] ∧
      savePaths (download_images_flat pyHash fetch pageUrl folder .err) = []) ∧
    (∀ (fetch : String → FetchResult) (pageUrl folder : String),
      download_images_organized fetch pageUrl folder .err = [.pageError] ∧
      savePaths (download_images_organized fetch pageUrl folder .err) = []) ∧
    (∀ (fetch : String → FetchResult) (dir : String) (st : DlState) (url : String)
      (rawName : List Char), fetch url = .err →
      itemStep fetch dir st url rawName =
        ([.attempt url, .fetchFail url],
          ⟨uniqueNameL st.used rawName :: st.used, st.count⟩)) ∧
    (∀ (α : Type) (step : DlState → α → List Event × DlState) (t : α) (ts : List α)
      (st : DlState),
      runFold step (t :: ts) st =
        ((step st t).1 ++ (runFold step ts (step st t).2).1,
          (runFold step ts (step st t).2).2)) ∧
    (∀ (pyHash : List Char → Nat) (fetch : String → FetchResult) (pageUrl folder : String)
      (tags : List ImgTag),
      ∃ c, (download_images_flat pyHash fetch pageUrl folder (.ok tags)).getLast? =
        some (.done c)) ∧
    (∀ (fetch : String → FetchResult) (pageUrl folder : String) (tags : List ImgTag),
      ∃ c, (download_images_organized fetch pageUrl folder (.ok tags)).getLast? =
        some (.done c)) := by
  refine ⟨fun pyHash fetch pageUrl folder => ⟨rfl, rfl⟩,
    fun fetch pageUrl folder => ⟨rfl, rfl⟩,
    fun fetch dir st url rawName hf => itemStep_err fetch dir st url rawName hf,
    fun α step t ts st => rfl, ?_, ?_⟩
  · intro pyHash fetch pageUrl folder tags
    simp only [download_images_flat]
    exact ⟨_, List.getLast?_concat _⟩
  · intro fetch pageUrl folder tags
    simp only [download_images_organized]
    exact ⟨_, List.getLast?_concat _⟩

/-- C7 witness: the fatal and skip rules at concrete inputs — an erroring
fetch of `https://site.example/a.jpg` yields exactly the attempt and failure
events with the count unchanged. -/
theorem c7_error_propagation_witness :
    itemStep (fun _ => .err) "out" ⟨[], 0⟩ "https://site.example/a.jpg" ("a.jpg".data) =
      ([.attempt "https://site.example/a.jpg", .fetchFail "https://site.example/a.jpg"],
        ⟨[uniqueNameL [] ("a.jpg".data)], 0⟩) :=
  c7_error_propagation.2.2.1 (fun _ => .err) "out" ⟨[], 0⟩
    "https://site.example/a.jpg" ("a.jpg".data) rfl

/-- C8: an image response with a success status whose `Content-Type` does not
begin with `image/` is skipped — the shared download block emits only the
attempt and skip events, writes nothing, and leaves the success count
unchanged; a whole flat run over one such image ends normally with count 0. -/
theorem c8_non_image_skip :
    (∀ (fetch : String → FetchResult) (dir : String) (st : DlState) (url : String)
      (rawName : List Char) (ct : String) (body : List Nat),
      fetch url = .ok ct body →
      startsWithL ct.data ("image/".data) = false →
      itemStep fetch dir st url rawName =
        ([.attempt url, .skipContent url ct],
          ⟨uniqueNameL st.used rawName :: st.used, st.count⟩)) ∧
    download_images_flat (fun _ => 0) (fun _ => .ok "text/html" [])
      "https://site.example/" "out"
      (.ok [⟨some "https://site.example/a.jpg", none, none, "", ""⟩]) =
      [.attempt "https://site.example/a.jpg",
       .skipContent "https://site.example/a.jpg" "text/html", .done 0] := by
  exact ⟨fun fetch dir st url rawName ct body hf hct =>
    itemStep_skip fetch dir st url rawName ct body hf hct, by decide⟩

/-- C8 witness: the skip rule at a concrete `text/html` response. -/
theorem c8_non_image_skip_witness :
    itemStep (fun _ => .ok "text/html" []) "out" ⟨[], 0⟩
      "https://site.example/a.jpg" ("a.jpg".data) =
      ([.attempt "https://site.example/a.jpg",
        .skipContent "https://site.example/a.jpg" "text/html"],
        ⟨[uniqueNameL [] ("a.jpg".data)], 0⟩) :=
  c8_non_image_skip.1 (fun _ => .ok "text/html" []) "out" ⟨[], 0⟩
    "https://site.example/a.jpg" ("a.jpg".data) "text/html" [] rfl (by decide)

/-- C9, counterexample: a failed image fetch is not followed by any delay —
the run over one erroring image contains an attempt but no sleep event,
refuting the claim that the 0.5-unit delay follows every attempt whether it
succeeds, is skipped, or fails. -/
theorem c9_counterexample :
    download_images_flat (fun _ => 0) (fun _ => .err) "https://site.example/" "out"
      (.ok [⟨some "https://site.example/a.jpg", none, none, "", ""⟩]) =
      [.attempt "https://site.example/a.jpg",
       .fetchFail "https://site.example/a.jpg", .done 0] ∧
    countSleeps (download_images_flat (fun _ => 0) (fun _ => .err) "https://site.example/"
      "out" (.ok [⟨some "https://site.example/a.jpg", none, none, "", ""⟩])) = 0 ∧
    (attemptUrls (download_images_flat (fun _ => 0) (fun _ => .err) "https://site.example/"
      "out" (.ok [⟨some "https://site.example/a.jpg", none, none, "", ""⟩]))).length = 1 := by
  exact ⟨by decide, by decide, by decide⟩

/-- C9 (amended): the fixed 0.5-time-unit delay follows each successfully
saved image, and only those: in every run of either variant the number of
sleep events equals the number of save events, and on a successful image
response the shared download block emits the save immediately followed by
`sleep 5` (tenths of a unit); skipped and failed attempts emit no sleep. -/
theorem c9_delay_after_saves_only :
    (∀ (pyHash : List Char → Nat) (fetch : String → FetchResult)
      (pageUrl folder : String) (page : PageResult),
      countSleeps (download_images_flat pyHash fetch pageUrl folder page) =
        countSaves (download_images_flat pyHash fetch pageUrl folder page)) ∧
    (∀ (fetch : String → FetchResult) (pageUrl folder : String) (page : PageResult),
      countSleeps (download_images_organized fetch pageUrl folder page) =
        countSaves (download_images_organized fetch pageUrl folder page)) ∧
    (∀ (fetch : String → FetchResult) (dir : String) (st : DlState) (url : String)
      (rawName : List Char) (ct : String) (body : List Nat),
      fetch url = .ok ct body →
      startsWithL ct.data ("image/".data) = true →
      itemStep fetch dir st url rawName =
        ([.attempt url,
          .save ⟨pjoinL dir.data (uniqueNameL st.used rawName)⟩ body, .sleep 5],
          ⟨uniqueNameL st.used rawName :: st.used, st.count + 1⟩)) := by
  exact ⟨download_images_flat_sleeps, download_images_organized_sleeps,
    fun fetch dir st url rawName ct body hf hct =>
      itemStep_save fetch dir st url rawName ct body hf hct⟩

/-- C9 witness: the save-then-sleep rule at a concrete successful response. -/
theorem c9_delay_after_saves_only_witness :
    itemStep (fun _ => .ok "image/jpeg" [7]) "out" ⟨[], 0⟩
      "https://site.example/a.jpg" ("a.jpg".data) =
      ([.attempt "https://site.example/a.jpg",
        .save ⟨pjoinL "out".data (uniqueNameL [] ("a.jpg".data))⟩ [7], .sleep 5],
        ⟨[uniqueNameL [] ("a.jpg".data)], 1⟩) :=
  c9_delay_after_saves_only.2.2 (fun _ => .ok "image/jpeg" [7]) "out" ⟨[], 0⟩
    "https://site.example/a.jpg" ("a.jpg".data) "image/jpeg" [7] rfl (by decide)

/-- C10: the derived filename is inserted into the collision-tracking set
before the download outcome matters — the used-set update of the shared block
is the same for every fetch outcome, the flat per-tag step's used set does not
depend on the fetch oracle at all, and in both variants a name reserved by a
failed download still forces the `_1` suffix on the next image deriving the
same name, even though no file was written under the reserved name. -/
theorem c10_name_reserved_before_attempt :
    (∀ (fetch : String → FetchResult) (dir : String) (st : DlState) (url : String)
      (rawName : List Char),
      (itemStep fetch dir st url rawName).2.used =
        uniqueNameL st.used rawName :: st.used) ∧
    (∀ (pyHash : List Char → Nat) (f g : String → FetchResult) (pageUrl folder : String)
      (st : DlState) (t : ImgTag),
      (flatTagStep pyHash f pageUrl folder st t).2.used =
        (flatTagStep pyHash g pageUrl folder st t).2.used) ∧
    savePaths (download_images_flat (fun _ => 0)
      (fun u => if u = "https://site.example/a.jpg" then .err else .ok "image/jpeg" [1])
      "https://site.example/" "out" (.ok [
        ⟨some "https://site.example/a.jpg", none, none, "", ""⟩,
        ⟨some "https://site.example/dir/a.jpg", none, none, "", ""⟩])) = ["out/a_1.jpg"] ∧
    savePaths (download_images_organized
      (fun u => if u = "https://site.example/d1/pic.jpg" then .err else .ok "image/jpeg" [])
      "https://site.example/" "out" (.ok [
        ⟨some "https://site.example/d1/pic.jpg", none, none, "", ""⟩,
        ⟨some "https://site.example/d2/pic.jpg", none, none, "", ""⟩])) =
      ["out/pic/pic_1.jpg"] := by
  refine ⟨fun fetch dir st url rawName => itemStep_used fetch dir st url rawName,
    ?_, by decide, by decide⟩
  intro pyHash f g pageUrl folder st t
  rw [flatTagStep, flatTagStep]
  cases pickSrc t with
  | none => rfl
  | some r =>
    dsimp only
    split_ifs
    · rfl
    · rfl
    · rw [itemStep_used, itemStep_used]
